import Mathlib

/-!
Shallow embedding of the `bin_packing_2d` Rust crate (`src/lib.rs`), a
first-fit-decreasing 2D bin-packing engine, together with theorems checking
the natural-language specification against it.

Modelling conventions:
* The occupancy bitmap (`Bitmap2d`, a row-major `BitVec` of `width*height`
  bits) is modelled as a function `Nat → Nat → Bool`; every access the source
  performs is bounds-checked by its caller, so the two representations are
  observationally equal.  `Bitmap2d::clear` sets every bit to false.
* Machine integers are `Nat`.  `usize::MAX` and `u32::MAX` are the literal
  values; the source never wraps any of the quantities modelled here.
* The cancellation closure (`FnMut() -> bool`) is modelled as a function from
  the poll index to `Bool`; a poll counter is threaded through every function
  that polls, so the n-th poll of a run reads `cancel n`.
* Code that can terminate the process (the zero-dimension item check in
  `add_to_best_fit`) returns `none`; all regular results are `some`.
* The two source loops that run "until no progress" (the distance transform
  and the greedy rectangle growth in `calculate_largest_hole`) are written
  with explicit fuel.  The fuel chosen (`W*H + 2` outer passes for the
  transform, `W + H` growth steps) strictly dominates the number of
  iterations either loop can perform (each productive transform pass sets at
  least one still-unset cell, of which there are at most `W*H`; each growth
  step enlarges the rectangle's half-perimeter, which is bounded by
  `W + H - 2`), so the embedded functions compute the same fixpoints the
  source loops do.
-/

namespace BinPacking2d

set_option maxRecDepth 100000

/-- A free, unused area (source: `struct Hole`). -/
structure Hole where
  width : Nat
  height : Nat
deriving DecidableEq, Repr

/-- Source: `Hole::default_area`, the default metric `width * height`. -/
def Hole.default_area (h : Hole) : Nat :=
  h.width * h.height

/-- An item that is to be packed (source: `struct Item<I>`). -/
structure Item (I : Type) where
  w : Nat
  h : Nat
  allow_rotate : Bool
  id : I
deriving DecidableEq, Repr

/-- Source: `Item::size`, `self.w.max(self.h)`. -/
def Item.size {I : Type} (it : Item I) : Nat :=
  it.w.max it.h

/-- A placed item (source: `struct PlacedItem<I>`); it occupies the half-open
rectangle `[x0,x1) × [y0,y1)`. -/
structure PlacedItem (I : Type) where
  x0 : Nat
  y0 : Nat
  x1 : Nat
  y1 : Nat
  rotated : Bool
  id : I
deriving DecidableEq, Repr

/-- Source: `PlacedItem::contains`. -/
def PlacedItem.contains {I : Type} (p : PlacedItem I) (pos : Nat × Nat) : Bool :=
  decide (p.x0 ≤ pos.1 ∧ pos.1 < p.x1 ∧ p.y0 ≤ pos.2 ∧ pos.2 < p.y1)

/-- Constraints on placing (source: `enum Strategy`). -/
inductive Strategy where
  | Rotate
  | DoNotRotate
  | RotateIfSuitable
deriving DecidableEq, Repr

/-- Source: `struct Rect`; `x1` and `y1` are inclusive. -/
structure Rect where
  x0 : Nat
  y0 : Nat
  x1 : Nat
  y1 : Nat
deriving DecidableEq, Repr

/-- A bin into which objects are packed (source: `struct Bin<I>`).  The
occupancy bitmap is the function `grid`. -/
structure Bin (I : Type) where
  width : Nat
  height : Nat
  grid : Nat → Nat → Bool
  items : List (PlacedItem I)
  largest_hole : Hole
  metric : Hole → Nat

/-- Source: `Bin::new`.  `Bitmap2d::new` terminates the process when either
dimension is zero; that fatal case is `none`. -/
def Bin.new {I : Type} (width height : Nat) : Option (Bin I) :=
  if width < 1 ∨ height < 1 then none
  else some
    { width := width
      height := height
      grid := fun _ _ => false
      items := []
      largest_hole := { width := width, height := height }
      metric := Hole.default_area }

/-- Source: `Bin::solution`. -/
def Bin.solution {I : Type} (b : Bin I) : List (PlacedItem I) :=
  b.items

/-- Source: `Bin::get_largest_hole`. -/
def Bin.get_largest_hole {I : Type} (b : Bin I) : Hole :=
  b.largest_hole

/-- Source: `Bin::set_metric`. -/
def Bin.set_metric {I : Type} (b : Bin I) (metric : Hole → Nat) : Bin I :=
  { b with metric := metric }

/-- Source: `Bin::measure`. -/
def Bin.measure {I : Type} (b : Bin I) (h : Hole) : Nat :=
  b.metric h

/-- Source: `Rect::hole`. -/
def Rect.hole (r : Rect) : Hole :=
  { width := r.x1 - r.x0 + 1, height := r.y1 - r.y0 + 1 }

/-- Source: `Rect::is_obstructed`: some cell of the (inclusive) rectangle is
occupied in the bitmap. -/
def Rect.is_obstructed {I : Type} (r : Rect) (b : Bin I) : Bool :=
  (List.range (r.y1 + 1 - r.y0)).any fun dy =>
    (List.range (r.x1 + 1 - r.x0)).any fun dx =>
      b.grid (r.x0 + dx) (r.y0 + dy)

/-- Source: `Rect::top_neighbors`. -/
def Rect.top_neighbors (r : Rect) : Option Rect :=
  if r.y0 = 0 then none
  else some { x0 := r.x0, y0 := r.y0 - 1, x1 := r.x1, y1 := r.y0 - 1 }

/-- Source: `Rect::bottom_neighbors`. -/
def Rect.bottom_neighbors (r : Rect) (bin_height : Nat) : Option Rect :=
  if r.y1 + 1 = bin_height then none
  else some { x0 := r.x0, y0 := r.y1 + 1, x1 := r.x1, y1 := r.y1 + 1 }

/-- Source: `Rect::right_neighbors`. -/
def Rect.right_neighbors (r : Rect) (bin_width : Nat) : Option Rect :=
  if r.x1 + 1 = bin_width then none
  else some { x0 := r.x1 + 1, y0 := r.y0, x1 := r.x1 + 1, y1 := r.y1 }

/-- Source: `Rect::left_neighbors`. -/
def Rect.left_neighbors (r : Rect) : Option Rect :=
  if r.x0 = 0 then none
  else some { x0 := r.x0 - 1, y0 := r.y0, x1 := r.x0 - 1, y1 := r.y1 }

/-- Source: `Rect::grow_left` (only reached when `x0 > 0`). -/
def Rect.grow_left (r : Rect) : Rect :=
  { r with x0 := r.x0 - 1 }

/-- Source: `Rect::grow_right`. -/
def Rect.grow_right (r : Rect) : Rect :=
  { r with x1 := r.x1 + 1 }

/-- Source: `Rect::grow_up` (only reached when `y0 > 0`). -/
def Rect.grow_up (r : Rect) : Rect :=
  { r with y0 := r.y0 - 1 }

/-- Source: `Rect::grow_down`. -/
def Rect.grow_down (r : Rect) : Rect :=
  { r with y1 := r.y1 + 1 }

/-- The value `u32::MAX`, the "unset" sentinel of the distance transform. -/
def u32_MAX : Nat := 4294967295

/-- The value `usize::MAX`, initial value of `cur_best_fit`. -/
def usize_MAX : Nat := 18446744073709551615

/-- The bounds-checked read of the distance-transform scratch map (the `get`
closure in `calculate_largest_hole`); out-of-grid reads are `none` there and
every use applies `unwrap_or(0)`, folded in here. -/
def nb_get (W H : Nat) (m : Nat → Nat → Nat) (x y : Int) : Nat :=
  if 0 ≤ x ∧ x < (W : Int) ∧ 0 ≤ y ∧ y < (H : Int) then m x.toNat y.toNat else 0

/-- Pointwise update of the scratch map (the `set` closure). -/
def map_set (m : Nat → Nat → Nat) (x y v : Nat) : Nat → Nat → Nat :=
  fun a c => if a = x ∧ c = y then v else m a c

/-- The neighbour offsets `(dy, dx)` scanned by the distance transform, in
source order (`dy` outer from -1 to 1, `dx` inner from -1 to 1). -/
def nb_offsets : List (Int × Int) :=
  [(-1, -1), (-1, 0), (-1, 1), (0, -1), (0, 0), (0, 1), (1, -1), (1, 0), (1, 1)]

/-- One cell of one pass of the distance transform: a still-unset cell whose
neighbourhood holds the current wavefront value `dist` is set to `dist + 1`.
The accumulator is the map together with the pass's `no_progress` flag. -/
def transform_cell (W H dist : Nat) (x y : Nat) (acc : (Nat → Nat → Nat) × Bool) :
    (Nat → Nat → Nat) × Bool :=
  if acc.1 x y = u32_MAX then
    if nb_offsets.any (fun d => nb_get W H acc.1 ((x : Int) + d.2) ((y : Int) + d.1) == dist) then
      (map_set acc.1 x y (dist + 1), false)
    else acc
  else acc

/-- One full pass of the distance transform over the grid, row-major. -/
def transform_pass (W H dist : Nat) (m : Nat → Nat → Nat) : (Nat → Nat → Nat) × Bool :=
  (List.range H).foldl
    (fun acc y => (List.range W).foldl (fun acc2 x => transform_cell W H dist x y acc2) acc)
    (m, true)

/-- The outer wavefront loop of the distance transform; `fuel` dominates the
iteration count (see the header comment). -/
def transform_loop (W H : Nat) : Nat → Nat → (Nat → Nat → Nat) → Nat × (Nat → Nat → Nat)
  | 0, dist, m => (dist, m)
  | fuel + 1, dist, m =>
    let p := transform_pass W H dist m
    if p.2 then (dist, p.1)
    else transform_loop W H fuel (dist + 1) p.1

/-- One attempt to grow horizontally: left side first, then right, each taken
only when the neighbouring column exists and is unobstructed. -/
def try_grow_horiz {I : Type} (b : Bin I) (r : Rect) : Option Rect :=
  if (r.left_neighbors.map (fun n => n.is_obstructed b)).getD true = false then
    some r.grow_left
  else if ((r.right_neighbors b.width).map (fun n => n.is_obstructed b)).getD true = false then
    some r.grow_right
  else none

/-- One attempt to grow vertically: top side first, then bottom. -/
def try_grow_vert {I : Type} (b : Bin I) (r : Rect) : Option Rect :=
  if (r.top_neighbors.map (fun n => n.is_obstructed b)).getD true = false then
    some r.grow_up
  else if ((r.bottom_neighbors b.height).map (fun n => n.is_obstructed b)).getD true = false then
    some r.grow_down
  else none

/-- One iteration of the greedy growth loop: the axis whose speculative growth
scores higher under the metric is tried first, the other axis is the
fallback; `none` means no side of either axis can grow. -/
def grow_step {I : Type} (b : Bin I) (r : Rect) : Option Rect :=
  if b.measure r.grow_right.hole > b.measure r.grow_down.hole then
    match try_grow_horiz b r with
    | some r' => some r'
    | none => try_grow_vert b r
  else
    match try_grow_vert b r with
    | some r' => some r'
    | none => try_grow_horiz b r

/-- The greedy growth loop, run to its fixpoint (fuel dominates the step
count, see the header comment). -/
def grow_loop {I : Type} (b : Bin I) : Nat → Rect → Rect
  | 0, r => r
  | fuel + 1, r =>
    match grow_step b r with
    | some r' => grow_loop b fuel r'
    | none => r

/-- Source: `Bin::calculate_largest_hole`. -/
def Bin.calculate_largest_hole {I : Type} (b : Bin I) : Hole :=
  let W := b.width
  let H := b.height
  let m0 : Nat → Nat → Nat := fun x y => if b.grid x y then 0 else u32_MAX
  let dm := transform_loop W H (W * H + 2) 0 m0
  if dm.1 = 0 then { width := 0, height := 0 }
  else
    let candidates : List Rect :=
      (List.range H).flatMap fun y =>
        (List.range W).filterMap fun x =>
          if dm.2 x y = dm.1 then some { x0 := x, y0 := y, x1 := x, y1 := y } else none
    let best := candidates.foldl
      (fun acc seed =>
        let r := grow_loop b (W + H) seed
        if b.measure r.hole > acc.2 then (r.hole, b.measure r.hole) else acc)
      ({ width := 0, height := 0 }, 0)
    best.1

/-- Source: `Bin::place`: stamp the (possibly rotated) rectangle into the
bitmap and append the `PlacedItem`. -/
def Bin.place {I : Type} (b : Bin I) (x0 y0 : Nat) (it : Item I) (rotated : Bool) : Bin I :=
  let w := if rotated then it.h else it.w
  let h := if rotated then it.w else it.h
  { b with
    grid := fun x y => if x0 ≤ x ∧ x < x0 + w ∧ y0 ≤ y ∧ y < y0 + h then true else b.grid x y
    items := b.items ++ [{ x0 := x0, y0 := y0, x1 := x0 + w, y1 := y0 + h,
                           rotated := rotated, id := it.id }] }

/-- Source: `Bin::evaluate_fit`: `none` when the candidate leaves the grid or
overlaps an occupied cell, else the count of empty cells adjacent to the
candidate's boundary. -/
def Bin.evaluate_fit {I : Type} (b : Bin I) (x0 y0 w h : Nat) : Option Nat :=
  if x0 ≥ b.width ∨ y0 ≥ b.height ∨ x0 + w > b.width ∨ y0 + h > b.height then none
  else if (List.range h).any (fun dy => (List.range w).any fun dx => b.grid (x0 + dx) (y0 + dy))
  then none
  else
    let pv := (List.range h).foldl
      (fun acc dy =>
        let acc1 := if 0 < x0 ∧ b.grid (x0 - 1) (y0 + dy) = false then acc + 1 else acc
        if x0 + w < b.width ∧ b.grid (x0 + w) (y0 + dy) = false then acc1 + 1 else acc1)
      0
    let ph := (List.range w).foldl
      (fun acc dx =>
        let acc1 := if 0 < y0 ∧ b.grid (x0 + dx) (y0 - 1) = false then acc + 1 else acc
        if y0 + h < b.height ∧ b.grid (x0 + dx) (y0 + h) = false then acc1 + 1 else acc1)
      pv
    some ph

/-- Source: `Item::size().min`-related quantity `smallest_dim = h.min(w)` in
`add_to_best_fit`. -/
def Item.smallest_dim {I : Type} (it : Item I) : Nat :=
  it.h.min it.w

/-- The candidate-update step `if fit < cur_best_fit { ... }` shared by the
two orientation branches of the best-fit scan.  The state is
`(cur_best_fit, best_fit)`. -/
def consider (st : Nat × Option (Nat × Nat × Bool)) (cand : Option Nat)
    (pos : Nat × Nat × Bool) : Nat × Option (Nat × Nat × Bool) :=
  match cand with
  | some fit => if fit < st.1 then (fit, some pos) else st
  | none => st

/-- The scan state of one row of the best-fit scan: the `had_busy` flag plus
the running `(cur_best_fit, best_fit)` pair. -/
structure ScanSt where
  had_busy : Bool
  cur_best : Nat
  best : Option (Nat × Nat × Bool)

/-- One anchor position `(x, y)` of the best-fit scan: record whether the
anchor cell is occupied, then evaluate the orientations the strategy
permits (axis-aligned first, then rotated). -/
def best_fit_cell {I : Type} (b : Bin I) (it : Item I) (strat : Strategy) (y : Nat)
    (st : ScanSt) (x : Nat) : ScanSt :=
  let hb := st.had_busy || b.grid x y
  let s1 :=
    if strat = Strategy.DoNotRotate ∨ strat = Strategy.RotateIfSuitable then
      consider (st.cur_best, st.best) (b.evaluate_fit x y it.w it.h) (x, y, false)
    else (st.cur_best, st.best)
  let s2 :=
    if it.allow_rotate = true ∧ (strat = Strategy.Rotate ∨ strat = Strategy.RotateIfSuitable) then
      consider s1 (b.evaluate_fit x y it.h it.w) (x, y, true)
    else s1
  { had_busy := hb, cur_best := s2.1, best := s2.2 }

/-- The number of anchor columns scanned,
`width.saturating_sub(smallest_dim - 1)`. -/
def col_count {I : Type} (b : Bin I) (it : Item I) : Nat :=
  b.width - (it.smallest_dim - 1)

/-- The number of anchor rows scanned,
`height.saturating_sub(smallest_dim - 1)`. -/
def row_count {I : Type} (b : Bin I) (it : Item I) : Nat :=
  b.height - (it.smallest_dim - 1)

/-- One full row of the best-fit scan (the inner `x` loop). -/
def best_fit_row {I : Type} (b : Bin I) (it : Item I) (strat : Strategy) (y : Nat)
    (cur_best : Nat) (best : Option (Nat × Nat × Bool)) : ScanSt :=
  (List.range (col_count b it)).foldl (best_fit_cell b it strat y)
    { had_busy := false, cur_best := cur_best, best := best }

/-- Outcome of the row loop of the best-fit scan: either the cancellation
predicate fired (the whole placement attempt returns failure), or the loop
finished with the final `best_fit` candidate.  Both carry the poll counter. -/
inductive ScanOut where
  | canceled (k : Nat)
  | done (best : Option (Nat × Nat × Bool)) (k : Nat)
deriving DecidableEq, Repr

/-- The row loop of the best-fit scan (the outer `y` loop): each row first
polls the cancellation predicate, scans its anchors, and the loop stops early
after a row that saw no occupied cell while a candidate is at hand. -/
def best_fit_rows {I : Type} (b : Bin I) (it : Item I) (strat : Strategy)
    (cancel : Nat → Bool) :
    List Nat → Nat → Option (Nat × Nat × Bool) → Nat → ScanOut
  | [], _, best, k => ScanOut.done best k
  | y :: rest, cur_best, best, k =>
    if cancel k then ScanOut.canceled (k + 1)
    else
      let st := best_fit_row b it strat y cur_best best
      if st.had_busy = false ∧ st.best.isSome = true then ScanOut.done st.best (k + 1)
      else best_fit_rows b it strat cancel rest st.cur_best st.best (k + 1)

/-- Source: `Bin::add_to_best_fit`.  A zero item dimension is the fatal
precondition failure (`none`); the returned triple is the success flag, the
updated bin and the poll counter. -/
def Bin.add_to_best_fit {I : Type} (b : Bin I) (it : Item I) (strat : Strategy)
    (cancel : Nat → Bool) (k : Nat) : Option (Bool × Bin I × Nat) :=
  if it.w = 0 ∨ it.h = 0 then none
  else if it.w > b.width ∧ it.h > b.height then some (false, b, k)
  else
    match best_fit_rows b it strat cancel (List.range (row_count b it)) usize_MAX none k with
    | ScanOut.canceled k' => some (false, b, k')
    | ScanOut.done none k' => some (false, b, k')
    | ScanOut.done (some (x, y, rot)) k' => some (true, b.place x y it rot, k')

/-- Source: `Bin::place_all_impl`: try every item in order, polling the
cancellation predicate after each attempt. -/
def place_all_impl {I : Type} (strat : Strategy) (cancel : Nat → Bool) :
    Bin I → List (Item I) → Nat → Bool → Option (Bool × Bin I × Nat)
  | b, [], k, all_fit => some (all_fit, b, k)
  | b, it :: rest, k, all_fit =>
    match b.add_to_best_fit it strat cancel k with
    | none => none
    | some (ok, b', k') =>
      if cancel k' then some (false, b', k' + 1)
      else place_all_impl strat cancel b' rest (k' + 1) (all_fit && ok)

/-- Stable insertion of an item into a list sorted by descending `size`; an
earlier item stays before later items of equal size. -/
def insert_by_size {I : Type} (a : Item I) : List (Item I) → List (Item I)
  | [] => [a]
  | bI :: t => if a.size ≥ bI.size then a :: bI :: t else bI :: insert_by_size a t

/-- The stable descending-by-`size` sort performed by
`input_items.sort_by_key(|x| Reverse(x.size()))`.  A stable sort's output is
uniquely determined by the key order, so this insertion sort computes exactly
the list the source's stable sort produces. -/
def sort_by_size_desc {I : Type} : List (Item I) → List (Item I)
  | [] => []
  | a :: t => insert_by_size a (sort_by_size_desc t)

/-- The grid- and solution-clearing performed between rotation passes
(`self.items.clear(); self.bitmap.clear()`). -/
def Bin.clear_state {I : Type} (b : Bin I) : Bin I :=
  { b with items := [], grid := fun _ _ => false }

/-- Source: `Bin::place_all`: sort, then up to three strategy passes with the
documented cancellation checks and largest-hole bookkeeping in between. -/
def Bin.place_all {I : Type} (b : Bin I) (input : List (Item I)) (cancel : Nat → Bool) :
    Option (Bool × Bin I) :=
  let items := sort_by_size_desc input
  let any_rotatable := items.any (fun x => x.allow_rotate)
  match place_all_impl Strategy.DoNotRotate cancel b items 0 true with
  | none => none
  | some (r1, b1, k1) =>
    if r1 then some (true, { b1 with largest_hole := b1.calculate_largest_hole })
    else
      let b1h := { b1 with largest_hole := b1.calculate_largest_hole }
      if any_rotatable = false then some (false, b1h)
      else if cancel k1 then some (false, b1h)
      else
        match place_all_impl Strategy.Rotate cancel b1h.clear_state items (k1 + 1) true with
        | none => none
        | some (r2, b2, k2) =>
          if r2 then some (true, { b2 with largest_hole := b2.calculate_largest_hole })
          else
            let nh2 := b2.calculate_largest_hole
            let b2h := if b2.measure nh2 > b2.measure b2.largest_hole
                       then { b2 with largest_hole := nh2 } else b2
            if cancel k2 then some (false, b2h)
            else
              match place_all_impl Strategy.RotateIfSuitable cancel b2h.clear_state items
                  (k2 + 1) true with
              | none => none
              | some (r3, b3, _) =>
                let nh3 := b3.calculate_largest_hole
                let b3h := if b3.measure nh3 > b3.measure b3.largest_hole
                           then { b3 with largest_hole := nh3 } else b3
                some (r3, b3h)

/-! ### Specification predicates -/

/-- The point `(x, y)` lies in the half-open rectangle `[x0,x1) × [y0,y1)` of
a placed item. -/
def PlacedItem.covers {I : Type} (p : PlacedItem I) (x y : Nat) : Prop :=
  p.x0 ≤ x ∧ x < p.x1 ∧ p.y0 ≤ y ∧ y < p.y1

/-- Two placed items' rectangles (as half-open intervals) do not intersect. -/
def PlacedItem.disjoint {I : Type} (p q : PlacedItem I) : Prop :=
  ∀ x y, ¬(p.covers x y ∧ q.covers x y)

/-- The solution invariant of a `Bin`: every placed rectangle lies inside the
bin, the rectangles are pairwise disjoint, and the occupancy grid holds
exactly the cells covered by some placed item. -/
def Bin.Wf {I : Type} (b : Bin I) : Prop :=
  (∀ p ∈ b.items, p.x1 ≤ b.width ∧ p.y1 ≤ b.height) ∧
  b.items.Pairwise PlacedItem.disjoint ∧
  (∀ x y, b.grid x y = true ↔ ∃ p ∈ b.items, p.covers x y)

/-- An axis-aligned `w × h` rectangle anchored at `(x0, y0)` lies entirely
within the bin and covers only unoccupied cells. -/
def IsFreeRect {I : Type} (b : Bin I) (x0 y0 w h : Nat) : Prop :=
  x0 + w ≤ b.width ∧ y0 + h ≤ b.height ∧
  ∀ x y, x0 ≤ x → x < x0 + w → y0 ≤ y → y < y0 + h → b.grid x y = false

/-- A placed item is a faithful record of the source item it was derived
from: same id, the rotation flag only set for rotatable items, and the
rectangle's extents equal to the (possibly swapped) item dimensions. -/
def Consistent {I : Type} (it : Item I) (p : PlacedItem I) : Prop :=
  p.id = it.id ∧
  (p.rotated = true → it.allow_rotate = true ∧ p.x1 - p.x0 = it.h ∧ p.y1 - p.y0 = it.w) ∧
  (p.rotated = false → p.x1 - p.x0 = it.w ∧ p.y1 - p.y0 = it.h)

/-- The best-fit candidate invariant: whatever `best_fit` holds was produced
by a successful `evaluate_fit` of the dimensions matching its rotation flag,
and a rotated candidate exists only for a rotatable item. -/
def BestInv {I : Type} (b : Bin I) (it : Item I) (bf : Option (Nat × Nat × Bool)) : Prop :=
  ∀ x y rot, bf = some (x, y, rot) →
    (rot = true → it.allow_rotate = true) ∧
    ∃ pts, b.evaluate_fit x y (if rot then it.h else it.w) (if rot then it.w else it.h) =
      some pts

/-- No occupied cell in the scanned x-range of row `y`. -/
def RowAllFree {I : Type} (b : Bin I) (it : Item I) (y : Nat) : Prop :=
  ∀ x, x < col_count b it → b.grid x y = false

/-- The anchor `(x, y)` admits a feasible candidate placement under the given
strategy (in the orientations that strategy evaluates). -/
def AnchorFeasible {I : Type} (b : Bin I) (it : Item I) (strat : Strategy) (x y : Nat) : Prop :=
  ((strat = Strategy.DoNotRotate ∨ strat = Strategy.RotateIfSuitable) ∧
    (b.evaluate_fit x y it.w it.h).isSome = true) ∨
  (it.allow_rotate = true ∧ (strat = Strategy.Rotate ∨ strat = Strategy.RotateIfSuitable) ∧
    (b.evaluate_fit x y it.h it.w).isSome = true)

/-- The invariant tying the running pair `(cur_best_fit, best_fit)` together:
before any candidate is found the score still has its initial value. -/
def CurInv (cur_best : Nat) (bf : Option (Nat × Nat × Bool)) : Prop :=
  bf = none → cur_best = usize_MAX

/-- The growth-loop invariant: the (inclusive-cornered) rectangle is
well-formed, lies inside the bin and covers only unoccupied cells. -/
def RectInv {I : Type} (b : Bin I) (r : Rect) : Prop :=
  r.x0 ≤ r.x1 ∧ r.y0 ≤ r.y1 ∧ r.x1 < b.width ∧ r.y1 < b.height ∧
  ∀ x y, r.x0 ≤ x → x ≤ r.x1 → r.y0 ≤ y → y ≤ r.y1 → b.grid x y = false

/-! ### Concrete instances evaluated by witness and counterexample theorems -/

/-- A placeholder bin, used only as the default of `Option.getD`. -/
def junk_bin {I : Type} : Bin I :=
  { width := 0, height := 0, grid := fun _ _ => false, items := [],
    largest_hole := { width := 0, height := 0 }, metric := Hole.default_area }

/-- A bin freshly constructed by `Bin::new` (the dimensions used below are
positive, so the `getD` default is never taken). -/
def new_bin (I : Type) (W H : Nat) : Bin I :=
  (Bin.new W H).getD junk_bin

/-- The items of the crate's documented example (Scenario A). -/
def scenario_a_items : List (Item Char) :=
  [⟨10, 3, true, 'D'⟩, ⟨10, 3, true, 'A'⟩, ⟨10, 3, true, 'B'⟩, ⟨1, 10, true, 'C'⟩]

/-- A small concrete run: one rotatable 2×3 item into a fresh 4×4 bin. -/
def small_run : Bool × Bin Nat :=
  ((new_bin Nat 4 4).place_all [⟨2, 3, true, 7⟩] (fun _ => false)).getD (true, junk_bin)

/-- A small concrete run: one rotatable 2×2 item into a fresh 3×3 bin. -/
def tiny_run : Bool × Bin Nat :=
  ((new_bin Nat 3 3).place_all [⟨2, 2, true, 0⟩] (fun _ => false)).getD (true, junk_bin)

/-- A run of `place_all` on the empty item sequence with a constantly-true
cancellation predicate. -/
def empty_run : Bool × Bin Nat :=
  ((new_bin Nat 3 3).place_all [] (fun _ => true)).getD (true, junk_bin)

/-! ### Generic fold lemmas -/

theorem foldl_preserve {α σ : Type*} {P : σ → Prop} {f : σ → α → σ} :
    ∀ {l : List α} {s : σ}, P s → (∀ s a, a ∈ l → P s → P (f s a)) → P (l.foldl f s)
  | [], s, h, _ => h
  | a :: t, s, h, hstep => by
    simpa using foldl_preserve (l := t) (hstep s a (List.mem_cons_self a t) h)
      (fun s' a' ha' h' => hstep s' a' (List.mem_cons_of_mem a ha') h')

/-! ### Lemmas about `evaluate_fit` -/

theorem evaluate_fit_sound {I : Type} {b : Bin I} {x0 y0 w h pts : Nat}
    (he : b.evaluate_fit x0 y0 w h = some pts) :
    x0 + w ≤ b.width ∧ y0 + h ≤ b.height ∧
    ∀ x y, x0 ≤ x → x < x0 + w → y0 ≤ y → y < y0 + h → b.grid x y = false := by
  unfold Bin.evaluate_fit at he
  by_cases h1 : x0 ≥ b.width ∨ y0 ≥ b.height ∨ x0 + w > b.width ∨ y0 + h > b.height
  · simp [h1] at he
  · rw [if_neg h1] at he
    push_neg at h1
    refine ⟨h1.2.2.1, h1.2.2.2, ?_⟩
    intro x y hx1 hx2 hy1 hy2
    by_cases h2 : ((List.range h).any fun dy =>
        (List.range w).any fun dx => b.grid (x0 + dx) (y0 + dy)) = true
    · rw [if_pos h2] at he; exact absurd he (by simp)
    · have h2' : ¬∃ dy ∈ List.range h, ∃ dx ∈ List.range w,
          b.grid (x0 + dx) (y0 + dy) = true := by
        intro ⟨dy, hdy, dx, hdx, hg⟩
        exact h2 (List.any_eq_true.mpr ⟨dy, hdy, List.any_eq_true.mpr ⟨dx, hdx, hg⟩⟩)
      push_neg at h2'
      have hdx : x = x0 + (x - x0) := by omega
      have hdy : y = y0 + (y - y0) := by omega
      have hne := h2' (y - y0) (List.mem_range.mpr (by omega)) (x - x0)
        (List.mem_range.mpr (by omega))
      rw [hdx, hdy]
      exact Bool.not_eq_true _ |>.mp hne

theorem evaluate_fit_points_le {I : Type} {b : Bin I} {x0 y0 w h pts : Nat}
    (he : b.evaluate_fit x0 y0 w h = some pts) :
    pts ≤ 2 * (b.width + b.height) := by
  unfold Bin.evaluate_fit at he
  by_cases h1 : x0 ≥ b.width ∨ y0 ≥ b.height ∨ x0 + w > b.width ∨ y0 + h > b.height
  · simp [h1] at he
  · rw [if_neg h1] at he
    push_neg at h1
    by_cases h2 : ((List.range h).any fun dy =>
        (List.range w).any fun dx => b.grid (x0 + dx) (y0 + dy)) = true
    · rw [if_pos h2] at he; exact absurd he (by simp)
    · rw [if_neg h2] at he
      simp only [Option.some.injEq] at he
      subst he
      have step2 : ∀ (l : List Nat) (f : Nat → Bool) (g : Nat → Bool) (s : Nat),
          l.foldl (fun acc d =>
            let acc1 := if f d = true then acc + 1 else acc
            if g d = true then acc1 + 1 else acc1) s ≤ s + 2 * l.length := by
        intro l f g
        induction l with
        | nil => intro s; simp
        | cons a t ih =>
          intro s
          refine le_trans (ih _) ?_
          simp only [List.length_cons]
          split <;> split <;> omega
      have hv := step2 (List.range h)
        (fun dy => decide (0 < x0 ∧ b.grid (x0 - 1) (y0 + dy) = false))
        (fun dy => decide (x0 + w < b.width ∧ b.grid (x0 + w) (y0 + dy) = false)) 0
      have hh := step2 (List.range w)
        (fun dx => decide (0 < y0 ∧ b.grid (x0 + dx) (y0 - 1) = false))
        (fun dx => decide (x0 + w < b.width ∧ b.grid (x0 + w) (y0 + dx) = false)) 0
      -- rebind: compare the two folds against the generic bound
      refine le_trans ?_ (show 0 + 2 * h + 2 * w ≤ 2 * (b.width + b.height) by
        have : w ≤ b.width := by omega
        have : h ≤ b.height := by omega
        omega)
      have gen : ∀ (l : List Nat) (f g : Nat → Prop) [DecidablePred f] [DecidablePred g]
          (s : Nat),
          l.foldl (fun acc d =>
            let acc1 := if f d then acc + 1 else acc
            if g d then acc1 + 1 else acc1) s ≤ s + 2 * l.length := by
        intro l f g _ _
        induction l with
        | nil => intro s; simp
        | cons a t ih =>
          intro s
          refine le_trans (ih _) ?_
          simp only [List.length_cons]
          split <;> split <;> omega
      refine le_trans (gen (List.range w) _ _ _) ?_
      have := gen (List.range h)
        (fun dy => 0 < x0 ∧ b.grid (x0 - 1) (y0 + dy) = false)
        (fun dy => x0 + w < b.width ∧ b.grid (x0 + w) (y0 + dy) = false) 0
      simp only [List.length_range] at this ⊢
      omega

/-! ### Lemmas about the best-fit scan -/

theorem consider_cases (st : Nat × Option (Nat × Nat × Bool)) (cand : Option Nat)
    (pos : Nat × Nat × Bool) :
    consider st cand pos = st ∨
    ∃ fit, cand = some fit ∧ fit < st.1 ∧ consider st cand pos = (fit, some pos) := by
  cases cand with
  | none => exact Or.inl rfl
  | some fit =>
    by_cases hlt : fit < st.1
    · exact Or.inr ⟨fit, rfl, hlt, by simp [consider, hlt]⟩
    · exact Or.inl (by simp [consider, hlt])

theorem consider_bestinv {I : Type} {b : Bin I} {it : Item I}
    {s : Nat × Option (Nat × Nat × Bool)} {x y : Nat} (rot : Bool)
    (h : BestInv b it s.2)
    (hrot : rot = true → it.allow_rotate = true) :
    BestInv b it ((consider s (b.evaluate_fit x y (if rot then it.h else it.w)
      (if rot then it.w else it.h)) (x, y, rot)).2) := by
  rcases consider_cases s (b.evaluate_fit x y (if rot then it.h else it.w)
      (if rot then it.w else it.h)) (x, y, rot) with hc | ⟨fit, hfit, hlt, hc⟩
  · rw [hc]; exact h
  · rw [hc]
    intro a c r heq
    simp only [Option.some.injEq, Prod.mk.injEq] at heq
    obtain ⟨ha, hcc, hr⟩ := heq
    subst ha; subst hcc; subst hr
    exact ⟨hrot, fit, hfit⟩

theorem best_fit_cell_bestinv {I : Type} {b : Bin I} {it : Item I} {strat : Strategy}
    {y : Nat} {st : ScanSt} {x : Nat} (h : BestInv b it st.best) :
    BestInv b it (best_fit_cell b it strat y st x).best := by
  unfold best_fit_cell
  simp only []
  have h1 : BestInv b it ((if strat = Strategy.DoNotRotate ∨ strat = Strategy.RotateIfSuitable
      then consider (st.cur_best, st.best) (b.evaluate_fit x y it.w it.h) (x, y, false)
      else (st.cur_best, st.best)).2) := by
    split
    · exact consider_bestinv false h (fun hf => absurd hf (by simp))
    · exact h
  split
  · rename_i hcond
    exact consider_bestinv true h1 (fun _ => hcond.1)
  · exact h1

theorem best_fit_row_bestinv {I : Type} {b : Bin I} {it : Item I} {strat : Strategy}
    {y cb : Nat} {bf : Option (Nat × Nat × Bool)} (h : BestInv b it bf) :
    BestInv b it (best_fit_row b it strat y cb bf).best :=
  foldl_preserve (P := fun (st : ScanSt) => BestInv b it st.best) h
    (fun _ x _ hx => best_fit_cell_bestinv hx)

theorem best_fit_rows_bestinv {I : Type} {b : Bin I} {it : Item I} {strat : Strategy}
    {cancel : Nat → Bool} :
    ∀ {rows : List Nat} {cb : Nat} {bf : Option (Nat × Nat × Bool)} {k : Nat}
      {bf' : Option (Nat × Nat × Bool)} {k' : Nat},
      BestInv b it bf →
      best_fit_rows b it strat cancel rows cb bf k = ScanOut.done bf' k' →
      BestInv b it bf'
  | [], cb, bf, k, bf', k', h, he => by
    cases he
    exact h
  | y :: rest, cb, bf, k, bf', k', h, he => by
    simp only [best_fit_rows] at he
    split at he
    · cases he
    · split at he
      · cases he
        exact best_fit_row_bestinv h
      · exact best_fit_rows_bestinv (best_fit_row_bestinv h) he

/-! ### Lemmas about `place` -/

theorem place_items {I : Type} (b : Bin I) (x0 y0 : Nat) (it : Item I) (rot : Bool) :
    (b.place x0 y0 it rot).items = b.items ++
      [{ x0 := x0, y0 := y0, x1 := x0 + (if rot then it.h else it.w),
         y1 := y0 + (if rot then it.w else it.h), rotated := rot, id := it.id }] := rfl

theorem place_grid {I : Type} (b : Bin I) (x0 y0 : Nat) (it : Item I) (rot : Bool)
    (x y : Nat) :
    (b.place x0 y0 it rot).grid x y =
      if x0 ≤ x ∧ x < x0 + (if rot then it.h else it.w) ∧
         y0 ≤ y ∧ y < y0 + (if rot then it.w else it.h)
      then true else b.grid x y := rfl

theorem place_width {I : Type} (b : Bin I) (x0 y0 : Nat) (it : Item I) (rot : Bool) :
    (b.place x0 y0 it rot).width = b.width := rfl

theorem place_height {I : Type} (b : Bin I) (x0 y0 : Nat) (it : Item I) (rot : Bool) :
    (b.place x0 y0 it rot).height = b.height := rfl

theorem place_wf {I : Type} {b : Bin I} {x0 y0 : Nat} {it : Item I} {rot : Bool}
    (hw : Bin.Wf b)
    (hb1 : x0 + (if rot then it.h else it.w) ≤ b.width)
    (hb2 : y0 + (if rot then it.w else it.h) ≤ b.height)
    (hfree : ∀ x y, x0 ≤ x → x < x0 + (if rot then it.h else it.w) →
      y0 ≤ y → y < y0 + (if rot then it.w else it.h) → b.grid x y = false) :
    Bin.Wf (b.place x0 y0 it rot) := by
  obtain ⟨hcont, hpair, hcov⟩ := hw
  refine ⟨?_, ?_, ?_⟩
  · intro q hq
    rw [place_items] at hq
    rcases List.mem_append.mp hq with hq | hq
    · exact hcont q hq
    · rcases List.mem_singleton.mp hq with rfl
      exact ⟨hb1, hb2⟩
  · rw [place_items]
    refine List.pairwise_append.mpr ⟨hpair, List.pairwise_singleton _ _, ?_⟩
    intro q hq p' hp'
    rcases List.mem_singleton.mp hp' with rfl
    intro a c hac
    obtain ⟨hqc, hpc⟩ := hac
    obtain ⟨h1, h2, h3, h4⟩ := hpc
    have hg : b.grid a c = true := (hcov a c).mpr ⟨q, hq, hqc⟩
    have hf : b.grid a c = false := hfree a c h1 h2 h3 h4
    rw [hg] at hf
    exact absurd hf (by simp)
  · intro a c
    rw [place_grid, place_items]
    constructor
    · intro hg
      by_cases hin : x0 ≤ a ∧ a < x0 + (if rot then it.h else it.w) ∧
          y0 ≤ c ∧ c < y0 + (if rot then it.w else it.h)
      · refine ⟨_, List.mem_append_right _ (List.mem_singleton_self _), ?_⟩
        exact hin
      · rw [if_neg hin] at hg
        obtain ⟨q, hq, hqc⟩ := (hcov a c).mp hg
        exact ⟨q, List.mem_append_left _ hq, hqc⟩
    · rintro ⟨q, hq, hqc⟩
      rcases List.mem_append.mp hq with hq | hq
      · have hg : b.grid a c = true := (hcov a c).mpr ⟨q, hq, hqc⟩
        by_cases hin : x0 ≤ a ∧ a < x0 + (if rot then it.h else it.w) ∧
            y0 ≤ c ∧ c < y0 + (if rot then it.w else it.h)
        · rw [if_pos hin]
        · rw [if_neg hin]; exact hg
      · rcases List.mem_singleton.mp hq with rfl
        have hin : x0 ≤ a ∧ a < x0 + (if rot then it.h else it.w) ∧
            y0 ≤ c ∧ c < y0 + (if rot then it.w else it.h) := hqc
        rw [if_pos hin]

/-! ### Soundness of `add_to_best_fit` -/

theorem add_to_best_fit_spec {I : Type} {b : Bin I} {it : Item I} {strat : Strategy}
    {cancel : Nat → Bool} {k : Nat} {ok : Bool} {b' : Bin I} {k' : Nat}
    (h : b.add_to_best_fit it strat cancel k = some (ok, b', k')) :
    b'.width = b.width ∧ b'.height = b.height ∧ b'.metric = b.metric ∧
    b'.largest_hole = b.largest_hole ∧
    (Bin.Wf b → Bin.Wf b') ∧
    ∃ placed, b'.items = b.items ++ placed ∧ ∀ p ∈ placed, Consistent it p := by
  unfold Bin.add_to_best_fit at h
  split at h
  · exact absurd h (by simp)
  · split at h
    · cases h
      exact ⟨rfl, rfl, rfl, rfl, fun hw => hw, [], by simp, by simp⟩
    · rcases hs : best_fit_rows b it strat cancel (List.range (row_count b it))
          usize_MAX none k with k0 | ⟨bf, k0⟩
      · rw [hs] at h
        cases h
        exact ⟨rfl, rfl, rfl, rfl, fun hw => hw, [], by simp, by simp⟩
      · rw [hs] at h
        have hinv : BestInv b it bf :=
          best_fit_rows_bestinv (fun _ _ _ hn => by cases hn) hs
        cases bf with
        | none =>
          cases h
          exact ⟨rfl, rfl, rfl, rfl, fun hw => hw, [], by simp, by simp⟩
        | some xyr =>
          obtain ⟨x, y, rot⟩ := xyr
          cases h
          obtain ⟨hrot, pts, hpts⟩ := hinv x y rot rfl
          obtain ⟨hw1, hw2, hw3⟩ := evaluate_fit_sound hpts
          refine ⟨rfl, rfl, rfl, rfl, fun hw => place_wf hw hw1 hw2 hw3, _,
            place_items b x y it rot, ?_⟩
          intro p hp
          rcases List.mem_singleton.mp hp with rfl
          refine ⟨rfl, ?_, ?_⟩
          · intro hr
            subst hr
            refine ⟨hrot rfl, ?_, ?_⟩ <;> simp
          · intro hr
            subst hr
            refine ⟨?_, ?_⟩ <;> simp

/-! ### Soundness of `place_all_impl` -/

theorem place_all_impl_spec {I : Type} {strat : Strategy} {cancel : Nat → Bool} :
    ∀ {items : List (Item I)} {b : Bin I} {k : Nat} {af r : Bool} {b' : Bin I} {k' : Nat},
      place_all_impl strat cancel b items k af = some (r, b', k') →
      b'.width = b.width ∧ b'.height = b.height ∧ b'.metric = b.metric ∧
      b'.largest_hole = b.largest_hole ∧
      (Bin.Wf b → Bin.Wf b') ∧
      ∃ placed, b'.items = b.items ++ placed ∧ ∀ p ∈ placed, ∃ it ∈ items, Consistent it p
  | [], b, k, af, r, b', k', h => by
    cases h
    exact ⟨rfl, rfl, rfl, rfl, fun hw => hw, [], by simp, by simp⟩
  | it :: rest, b, k, af, r, b', k', h => by
    simp only [place_all_impl] at h
    cases ha : b.add_to_best_fit it strat cancel k with
    | none => rw [ha] at h; cases h
    | some res =>
      obtain ⟨ok, b1, k1⟩ := res
      simp only [ha] at h
      obtain ⟨hww, hhh, hmm, hlh, hwf, placed1, hit1, hcons1⟩ := add_to_best_fit_spec ha
      by_cases hc : cancel k1 = true
      · rw [if_pos hc] at h
        cases h
        exact ⟨hww, hhh, hmm, hlh, hwf, placed1, hit1,
          fun p hp => ⟨it, List.mem_cons_self it rest, hcons1 p hp⟩⟩
      · rw [if_neg hc] at h
        obtain ⟨hw2, hh2, hm2, hl2, hwf2, placed2, hit2, hcons2⟩ := place_all_impl_spec h
        refine ⟨hw2.trans hww, hh2.trans hhh, hm2.trans hmm, hl2.trans hlh,
          fun hw => hwf2 (hwf hw), placed1 ++ placed2, ?_, ?_⟩
        · rw [hit2, hit1, List.append_assoc]
        · intro p hp
          rcases List.mem_append.mp hp with hp | hp
          · exact ⟨it, List.mem_cons_self it rest, hcons1 p hp⟩
          · obtain ⟨it', hit', hc⟩ := hcons2 p hp
            exact ⟨it', List.mem_cons_of_mem it hit', hc⟩

/-! ### The sort -/

theorem mem_insert_by_size {I : Type} {a x : Item I} :
    ∀ {l : List (Item I)}, x ∈ insert_by_size a l ↔ x = a ∨ x ∈ l
  | [] => by simp [insert_by_size]
  | bI :: t => by
    unfold insert_by_size
    split
    · simp
    · rw [List.mem_cons, mem_insert_by_size, List.mem_cons]
      tauto

theorem mem_sort_by_size_desc {I : Type} {x : Item I} :
    ∀ {l : List (Item I)}, x ∈ sort_by_size_desc l ↔ x ∈ l
  | [] => Iff.rfl
  | a :: t => by
    unfold sort_by_size_desc
    rw [mem_insert_by_size, List.mem_cons, mem_sort_by_size_desc]

/-! ### `Wf` is insensitive to the metric and hole fields -/

theorem wf_update_hole {I : Type} {b : Bin I} {nh : Hole} (h : Bin.Wf b) :
    Bin.Wf { b with largest_hole := nh } := h

theorem wf_clear_state {I : Type} (b : Bin I) : Bin.Wf b.clear_state := by
  refine ⟨by simp [Bin.clear_state], by simp [Bin.clear_state], ?_⟩
  intro x y
  simp [Bin.clear_state]

/-! ### The distance transform -/

theorem foldl_flag_mono {α σ : Type*} {f : σ × Bool → α → σ × Bool}
    (hf : ∀ acc a, acc.2 = false → (f acc a).2 = false) :
    ∀ (l : List α) (acc : σ × Bool), acc.2 = false → (l.foldl f acc).2 = false
  | [], acc, h => h
  | a :: t, acc, h => by
    rw [List.foldl_cons]
    exact foldl_flag_mono hf t (f acc a) (hf acc a h)

theorem foldl_true_fix {α σ : Type*} {f : σ × Bool → α → σ × Bool}
    (hfix : ∀ s a, (f (s, true) a).2 = true → f (s, true) a = (s, true))
    (hmono : ∀ acc a, acc.2 = false → (f acc a).2 = false) :
    ∀ (l : List α) (s : σ), (l.foldl f (s, true)).2 = true →
      l.foldl f (s, true) = (s, true) ∧ ∀ a ∈ l, f (s, true) a = (s, true)
  | [], s, _ => ⟨rfl, by simp⟩
  | a :: t, s, h => by
    rw [List.foldl_cons] at h ⊢
    by_cases h1 : (f (s, true) a).2 = true
    · have hfa := hfix s a h1
      rw [hfa] at h ⊢
      obtain ⟨hfold, hall⟩ := foldl_true_fix hfix hmono t s h
      exact ⟨hfold, fun a' ha' => by
        rcases List.mem_cons.mp ha' with rfl | ha'
        · exact hfa
        · exact hall a' ha'⟩
    · have : (f (s, true) a).2 = false := by
        revert h1; cases (f (s, true) a).2 <;> simp
      have := foldl_flag_mono hmono t (f (s, true) a) this
      rw [this] at h
      cases h

theorem transform_cell_mono {W H dist x y : Nat} {acc : (Nat → Nat → Nat) × Bool}
    (h : acc.2 = false) : (transform_cell W H dist x y acc).2 = false := by
  unfold transform_cell
  split
  · split
    · rfl
    · exact h
  · exact h

theorem transform_cell_true_fix {W H dist x y : Nat} {m : Nat → Nat → Nat}
    (h : (transform_cell W H dist x y (m, true)).2 = true) :
    transform_cell W H dist x y (m, true) = (m, true) := by
  unfold transform_cell at h ⊢
  split at h
  · split at h
    · cases h
    · rename_i h1 h2
      rw [if_pos h1, if_neg h2]
  · rename_i h1
    rw [if_neg h1]

theorem transform_pass_mono_aux {W H dist : Nat} :
    ∀ (acc : (Nat → Nat → Nat) × Bool) (y : Nat), acc.2 = false →
      ((List.range W).foldl (fun acc2 x => transform_cell W H dist x y acc2) acc).2 = false :=
  fun acc y h =>
    foldl_flag_mono (fun acc2 x h2 => transform_cell_mono h2) (List.range W) acc h

theorem transform_pass_no_progress {W H dist : Nat} {m : Nat → Nat → Nat}
    (h : (transform_pass W H dist m).2 = true) :
    (transform_pass W H dist m).1 = m ∧
    ∀ y, y < H → ∀ x, x < W → transform_cell W H dist x y (m, true) = (m, true) := by
  unfold transform_pass at h ⊢
  have hrowfix : ∀ (s : Nat → Nat → Nat) (y : Nat),
      ((List.range W).foldl (fun acc2 x => transform_cell W H dist x y acc2) (s, true)).2 =
        true →
      (List.range W).foldl (fun acc2 x => transform_cell W H dist x y acc2) (s, true) =
        (s, true) :=
    fun s y hy =>
      (foldl_true_fix (fun s' x hx => transform_cell_true_fix hx)
        (fun acc2 x h2 => transform_cell_mono h2) (List.range W) s hy).1
  obtain ⟨hfold, hall⟩ := foldl_true_fix (f := fun acc y =>
      (List.range W).foldl (fun acc2 x => transform_cell W H dist x y acc2) acc)
    (fun s y hy => hrowfix s y hy)
    (fun acc y hacc => transform_pass_mono_aux acc y hacc)
    (List.range H) m h
  refine ⟨by rw [hfold], ?_⟩
  intro y hy x hx
  have hrow := hall y (List.mem_range.mpr hy)
  have := (foldl_true_fix (fun s' x' hx' => transform_cell_true_fix hx')
    (fun acc2 x' h2 => transform_cell_mono h2) (List.range W) m
    (by rw [hrow])).2
  exact this x (List.mem_range.mpr hx)

theorem transform_pass_progress {W H dist : Nat} {m : Nat → Nat → Nat}
    (h : (transform_pass W H dist m).2 = false) :
    ∃ x, x < W ∧ ∃ y, y < H ∧ (transform_pass W H dist m).1 x y = dist + 1 := by
  have key : ∀ (acc : (Nat → Nat → Nat) × Bool),
      (acc.2 = false → ∃ x, x < W ∧ ∃ y, y < H ∧ acc.1 x y = dist + 1) →
      ((List.range H).foldl
        (fun acc' y => (List.range W).foldl (fun acc2 x => transform_cell W H dist x y acc2)
          acc') acc).2 = false →
      ∃ x, x < W ∧ ∃ y, y < H ∧
        ((List.range H).foldl
          (fun acc' y => (List.range W).foldl (fun acc2 x => transform_cell W H dist x y acc2)
            acc') acc).1 x y = dist + 1 := by
    intro acc hacc hfin
    refine foldl_preserve (P := fun (a : (Nat → Nat → Nat) × Bool) =>
      a.2 = false → ∃ x, x < W ∧ ∃ y, y < H ∧ a.1 x y = dist + 1) hacc ?_ hfin
    intro a y hy ha
    refine foldl_preserve (P := fun (a2 : (Nat → Nat → Nat) × Bool) =>
      a2.2 = false → ∃ x, x < W ∧ ∃ y', y' < H ∧ a2.1 x y' = dist + 1) ha ?_
    intro a2 x hx ha2
    unfold transform_cell
    split
    · split
      · intro _
        refine ⟨x, List.mem_range.mp hx, y, List.mem_range.mp hy, ?_⟩
        simp [map_set]
      · exact ha2
    · exact ha2
  exact key (m, true) (fun hfalse => by cases hfalse) h

theorem transform_loop_dist_le {W H : Nat} :
    ∀ (fuel dist : Nat) (m : Nat → Nat → Nat), dist ≤ (transform_loop W H fuel dist m).1
  | 0, dist, m => Nat.le_refl _
  | fuel + 1, dist, m => by
    simp only [transform_loop]
    split
    · exact Nat.le_refl _
    · exact Nat.le_trans (Nat.le_succ _) (transform_loop_dist_le fuel _ _)

theorem transform_loop_exists {W H : Nat} :
    ∀ {fuel dist : Nat} {m : Nat → Nat → Nat},
      (dist = 0 ∨ ∃ x, x < W ∧ ∃ y, y < H ∧ m x y = dist) →
      ((transform_loop W H fuel dist m).1 = 0 ∨
       ∃ x, x < W ∧ ∃ y, y < H ∧
         (transform_loop W H fuel dist m).2 x y = (transform_loop W H fuel dist m).1)
  | 0, dist, m, h => h
  | fuel + 1, dist, m, h => by
    simp only [transform_loop]
    split
    · rename_i hp
      rcases h with h | ⟨x, hx, y, hy, hm⟩
      · exact Or.inl h
      · refine Or.inr ⟨x, hx, y, hy, ?_⟩
        have := (transform_pass_no_progress hp).1
        simp only []
        rw [this, hm]
    · rename_i hp
      have hfalse : (transform_pass W H dist m).2 = false := by
        revert hp; cases (transform_pass W H dist m).2 <;> simp
      obtain ⟨x, hx, y, hy, hv⟩ := transform_pass_progress hfalse
      exact transform_loop_exists (Or.inr ⟨x, hx, y, hy, hv⟩)

theorem transform_cell_mapinv {I : Type} {b : Bin I} {W H dist x y : Nat}
    {acc : (Nat → Nat → Nat) × Bool}
    (h : ∀ a c, b.grid a c = true → acc.1 a c = 0) :
    ∀ a c, b.grid a c = true → (transform_cell W H dist x y acc).1 a c = 0 := by
  unfold transform_cell
  split
  · split
    · rename_i hmax _
      intro a c hg
      simp only [map_set]
      by_cases he : a = x ∧ c = y
      · exfalso
        have h0 := h a c hg
        rw [he.1, he.2] at h0
        rw [h0] at hmax
        exact absurd hmax (by unfold u32_MAX; omega)
      · rw [if_neg he]
        exact h a c hg
    · exact h
  · exact h

theorem transform_loop_mapinv {I : Type} {b : Bin I} {W H : Nat} :
    ∀ {fuel dist : Nat} {m : Nat → Nat → Nat},
      (∀ a c, b.grid a c = true → m a c = 0) →
      ∀ a c, b.grid a c = true → (transform_loop W H fuel dist m).2 a c = 0
  | 0, dist, m, h => h
  | fuel + 1, dist, m, h => by
    simp only [transform_loop]
    have hpass : ∀ a c, b.grid a c = true → (transform_pass W H dist m).1 a c = 0 := by
      unfold transform_pass
      refine foldl_preserve (P := fun (acc : (Nat → Nat → Nat) × Bool) =>
        ∀ a c, b.grid a c = true → acc.1 a c = 0) h ?_
      intro acc y _ hacc
      refine foldl_preserve (P := fun (acc2 : (Nat → Nat → Nat) × Bool) =>
        ∀ a c, b.grid a c = true → acc2.1 a c = 0) hacc ?_
      intro acc2 x _ hacc2
      exact transform_cell_mapinv hacc2
    split
    · exact hpass
    · exact transform_loop_mapinv hpass

/-! ### The greedy rectangle growth -/

theorem is_obstructed_false_iff {I : Type} {r : Rect} {b : Bin I} :
    r.is_obstructed b = false ↔
    ∀ x y, r.x0 ≤ x → x ≤ r.x1 → r.y0 ≤ y → y ≤ r.y1 → b.grid x y = false := by
  unfold Rect.is_obstructed
  constructor
  · intro h x y hx1 hx2 hy1 hy2
    by_contra hg
    have hg' : b.grid x y = true := by revert hg; cases b.grid x y <;> simp
    have hany : ((List.range (r.y1 + 1 - r.y0)).any fun dy =>
        (List.range (r.x1 + 1 - r.x0)).any fun dx => b.grid (r.x0 + dx) (r.y0 + dy)) =
        true := by
      rw [List.any_eq_true]
      refine ⟨y - r.y0, List.mem_range.mpr (by omega), ?_⟩
      rw [List.any_eq_true]
      refine ⟨x - r.x0, List.mem_range.mpr (by omega), ?_⟩
      have h1 : r.x0 + (x - r.x0) = x := by omega
      have h2 : r.y0 + (y - r.y0) = y := by omega
      rw [h1, h2]
      exact hg'
    rw [hany] at h
    cases h
  · intro h
    by_contra hne
    have hany : ((List.range (r.y1 + 1 - r.y0)).any fun dy =>
        (List.range (r.x1 + 1 - r.x0)).any fun dx => b.grid (r.x0 + dx) (r.y0 + dy)) =
        true := by
      revert hne
      cases hc : (List.range (r.y1 + 1 - r.y0)).any fun dy =>
        (List.range (r.x1 + 1 - r.x0)).any fun dx => b.grid (r.x0 + dx) (r.y0 + dy) <;> simp
    rw [List.any_eq_true] at hany
    obtain ⟨dy, hdy, hrow⟩ := hany
    rw [List.any_eq_true] at hrow
    obtain ⟨dx, hdx, hg⟩ := hrow
    rw [List.mem_range] at hdy hdx
    have := h (r.x0 + dx) (r.y0 + dy) (by omega) (by omega) (by omega) (by omega)
    rw [this] at hg
    cases hg

theorem left_ok {I : Type} {b : Bin I} {r : Rect}
    (h : (r.left_neighbors.map (fun n => n.is_obstructed b)).getD true = false) :
    r.x0 ≠ 0 ∧
    (Rect.is_obstructed { x0 := r.x0 - 1, y0 := r.y0, x1 := r.x0 - 1, y1 := r.y1 } b) =
      false := by
  unfold Rect.left_neighbors at h
  by_cases h0 : r.x0 = 0
  · rw [if_pos h0] at h; cases h
  · rw [if_neg h0] at h
    exact ⟨h0, h⟩

theorem right_ok {I : Type} {b : Bin I} {r : Rect}
    (h : ((r.right_neighbors b.width).map (fun n => n.is_obstructed b)).getD true = false) :
    r.x1 + 1 ≠ b.width ∧
    (Rect.is_obstructed { x0 := r.x1 + 1, y0 := r.y0, x1 := r.x1 + 1, y1 := r.y1 } b) =
      false := by
  unfold Rect.right_neighbors at h
  by_cases h0 : r.x1 + 1 = b.width
  · rw [if_pos h0] at h; cases h
  · rw [if_neg h0] at h
    exact ⟨h0, h⟩

theorem top_ok {I : Type} {b : Bin I} {r : Rect}
    (h : (r.top_neighbors.map (fun n => n.is_obstructed b)).getD true = false) :
    r.y0 ≠ 0 ∧
    (Rect.is_obstructed { x0 := r.x0, y0 := r.y0 - 1, x1 := r.x1, y1 := r.y0 - 1 } b) =
      false := by
  unfold Rect.top_neighbors at h
  by_cases h0 : r.y0 = 0
  · rw [if_pos h0] at h; cases h
  · rw [if_neg h0] at h
    exact ⟨h0, h⟩

theorem bottom_ok {I : Type} {b : Bin I} {r : Rect}
    (h : ((r.bottom_neighbors b.height).map (fun n => n.is_obstructed b)).getD true =
      false) :
    r.y1 + 1 ≠ b.height ∧
    (Rect.is_obstructed { x0 := r.x0, y0 := r.y1 + 1, x1 := r.x1, y1 := r.y1 + 1 } b) =
      false := by
  unfold Rect.bottom_neighbors at h
  by_cases h0 : r.y1 + 1 = b.height
  · rw [if_pos h0] at h; cases h
  · rw [if_neg h0] at h
    exact ⟨h0, h⟩

theorem try_grow_horiz_rectinv {I : Type} {b : Bin I} {r r' : Rect} (hr : RectInv b r)
    (h : try_grow_horiz b r = some r') : RectInv b r' := by
  obtain ⟨ha, hb', hc, hd, hcells⟩ := hr
  unfold try_grow_horiz at h
  split at h
  · rename_i hcond
    cases h
    obtain ⟨h0, hfree⟩ := left_ok hcond
    have hfree' : ∀ x y, r.x0 - 1 ≤ x → x ≤ r.x0 - 1 → r.y0 ≤ y → y ≤ r.y1 →
        b.grid x y = false := is_obstructed_false_iff.mp hfree
    refine ⟨by simp [Rect.grow_left]; omega, by simp [Rect.grow_left]; omega,
      by simp [Rect.grow_left]; omega, by simp [Rect.grow_left]; omega, ?_⟩
    simp only [Rect.grow_left]
    intro x y hx1 hx2 hy1 hy2
    by_cases hx : r.x0 ≤ x
    · exact hcells x y hx hx2 hy1 hy2
    · exact hfree' x y (by omega) (by omega) hy1 hy2
  · split at h
    · rename_i hcond
      cases h
      obtain ⟨h0, hfree⟩ := right_ok hcond
      have hfree' : ∀ x y, r.x1 + 1 ≤ x → x ≤ r.x1 + 1 → r.y0 ≤ y → y ≤ r.y1 →
          b.grid x y = false := is_obstructed_false_iff.mp hfree
      refine ⟨by simp [Rect.grow_right]; omega, by simp [Rect.grow_right]; omega,
        by simp [Rect.grow_right]; omega, by simp [Rect.grow_right]; omega, ?_⟩
      simp only [Rect.grow_right]
      intro x y hx1 hx2 hy1 hy2
      by_cases hx : x ≤ r.x1
      · exact hcells x y hx1 hx hy1 hy2
      · exact hfree' x y (by omega) (by omega) hy1 hy2
    · cases h

theorem try_grow_vert_rectinv {I : Type} {b : Bin I} {r r' : Rect} (hr : RectInv b r)
    (h : try_grow_vert b r = some r') : RectInv b r' := by
  obtain ⟨ha, hb', hc, hd, hcells⟩ := hr
  unfold try_grow_vert at h
  split at h
  · rename_i hcond
    cases h
    obtain ⟨h0, hfree⟩ := top_ok hcond
    have hfree' : ∀ x y, r.x0 ≤ x → x ≤ r.x1 → r.y0 - 1 ≤ y → y ≤ r.y0 - 1 →
        b.grid x y = false := is_obstructed_false_iff.mp hfree
    refine ⟨by simp [Rect.grow_up]; omega, by simp [Rect.grow_up]; omega,
      by simp [Rect.grow_up]; omega, by simp [Rect.grow_up]; omega, ?_⟩
    simp only [Rect.grow_up]
    intro x y hx1 hx2 hy1 hy2
    by_cases hy : r.y0 ≤ y
    · exact hcells x y hx1 hx2 hy hy2
    · exact hfree' x y hx1 hx2 (by omega) (by omega)
  · split at h
    · rename_i hcond
      cases h
      obtain ⟨h0, hfree⟩ := bottom_ok hcond
      have hfree' : ∀ x y, r.x0 ≤ x → x ≤ r.x1 → r.y1 + 1 ≤ y → y ≤ r.y1 + 1 →
          b.grid x y = false := is_obstructed_false_iff.mp hfree
      refine ⟨by simp [Rect.grow_down]; omega, by simp [Rect.grow_down]; omega,
        by simp [Rect.grow_down]; omega, by simp [Rect.grow_down]; omega, ?_⟩
      simp only [Rect.grow_down]
      intro x y hx1 hx2 hy1 hy2
      by_cases hy : y ≤ r.y1
      · exact hcells x y hx1 hx2 hy1 hy
      · exact hfree' x y hx1 hx2 (by omega) (by omega)
    · cases h

theorem grow_step_rectinv {I : Type} {b : Bin I} {r r' : Rect} (hr : RectInv b r)
    (h : grow_step b r = some r') : RectInv b r' := by
  unfold grow_step at h
  split at h
  · cases hh : try_grow_horiz b r with
    | some r'' =>
      simp only [hh] at h
      cases h
      exact try_grow_horiz_rectinv hr hh
    | none =>
      simp only [hh] at h
      exact try_grow_vert_rectinv hr h
  · cases hv : try_grow_vert b r with
    | some r'' =>
      simp only [hv] at h
      cases h
      exact try_grow_vert_rectinv hr hv
    | none =>
      simp only [hv] at h
      exact try_grow_horiz_rectinv hr h

theorem grow_loop_rectinv {I : Type} {b : Bin I} :
    ∀ {fuel : Nat} {r : Rect}, RectInv b r → RectInv b (grow_loop b fuel r)
  | 0, r, hr => hr
  | fuel + 1, r, hr => by
    unfold grow_loop
    cases hg : grow_step b r with
    | some r' => exact grow_loop_rectinv (grow_step_rectinv hr hg)
    | none => exact hr

theorem grow_step_size {I : Type} {b : Bin I} {r r' : Rect} (hr : RectInv b r)
    (h : grow_step b r = some r') :
    (r'.x1 - r'.x0) + (r'.y1 - r'.y0) = (r.x1 - r.x0) + (r.y1 - r.y0) + 1 := by
  obtain ⟨ha, hb', hc, hd, _⟩ := hr
  have horiz : ∀ r'', try_grow_horiz b r = some r'' →
      (r''.x1 - r''.x0) + (r''.y1 - r''.y0) = (r.x1 - r.x0) + (r.y1 - r.y0) + 1 := by
    intro r'' hh
    unfold try_grow_horiz at hh
    split at hh
    · rename_i hcond
      cases hh
      obtain ⟨h0, _⟩ := left_ok hcond
      simp only [Rect.grow_left]
      omega
    · split at hh
      · cases hh
        simp only [Rect.grow_right]
        omega
      · cases hh
  have vert : ∀ r'', try_grow_vert b r = some r'' →
      (r''.x1 - r''.x0) + (r''.y1 - r''.y0) = (r.x1 - r.x0) + (r.y1 - r.y0) + 1 := by
    intro r'' hh
    unfold try_grow_vert at hh
    split at hh
    · rename_i hcond
      cases hh
      obtain ⟨h0, _⟩ := top_ok hcond
      simp only [Rect.grow_up]
      omega
    · split at hh
      · cases hh
        simp only [Rect.grow_down]
        omega
      · cases hh
  unfold grow_step at h
  split at h
  · cases hh : try_grow_horiz b r with
    | some r'' => simp only [hh] at h; cases h; exact horiz _ hh
    | none => simp only [hh] at h; exact vert _ h
  · cases hv : try_grow_vert b r with
    | some r'' => simp only [hv] at h; cases h; exact vert _ hv
    | none => simp only [hv] at h; exact horiz _ h

theorem grow_loop_fix {I : Type} {b : Bin I} :
    ∀ {fuel : Nat} {r : Rect}, RectInv b r →
      (b.width - 1 - (r.x1 - r.x0)) + (b.height - 1 - (r.y1 - r.y0)) < fuel →
      grow_step b (grow_loop b fuel r) = none
  | 0, r, _, hf => absurd hf (by omega)
  | fuel + 1, r, hr, hf => by
    unfold grow_loop
    cases hg : grow_step b r with
    | none => exact hg
    | some r' =>
      have hr' := grow_step_rectinv hr hg
      have hsz := grow_step_size hr hg
      refine grow_loop_fix hr' ?_
      obtain ⟨ha, hb', hc, hd, _⟩ := hr
      obtain ⟨ha', hb'', hc', hd', _⟩ := hr'
      omega

/-! ### Soundness of `calculate_largest_hole` -/

theorem calc_hole_seed_mem {W H : Nat} {dmap : Nat → Nat → Nat} {dist : Nat} {r : Rect}
    (h : r ∈ (List.range H).flatMap fun y =>
      (List.range W).filterMap fun x =>
        if dmap x y = dist then some (⟨x, y, x, y⟩ : Rect) else none) :
    ∃ x y, x < W ∧ y < H ∧ dmap x y = dist ∧ r = ⟨x, y, x, y⟩ := by
  rw [List.mem_flatMap] at h
  obtain ⟨y, hy, hr⟩ := h
  rw [List.mem_filterMap] at hr
  obtain ⟨x, hx, hfx⟩ := hr
  rw [List.mem_range] at hy hx
  by_cases hc : dmap x y = dist
  · rw [if_pos hc] at hfx
    cases hfx
    exact ⟨x, y, hx, hy, hc, rfl⟩
  · rw [if_neg hc] at hfx
    cases hfx

theorem calc_hole_seed_mem_mpr {W H : Nat} {dmap : Nat → Nat → Nat} {dist x y : Nat}
    (hx : x < W) (hy : y < H) (hv : dmap x y = dist) :
    (⟨x, y, x, y⟩ : Rect) ∈ (List.range H).flatMap fun y =>
      (List.range W).filterMap fun x =>
        if dmap x y = dist then some (⟨x, y, x, y⟩ : Rect) else none := by
  rw [List.mem_flatMap]
  refine ⟨y, List.mem_range.mpr hy, ?_⟩
  rw [List.mem_filterMap]
  exact ⟨x, List.mem_range.mpr hx, by rw [if_pos hv]⟩

theorem calc_hole_spec {I : Type} (b : Bin I) :
    b.calculate_largest_hole = { width := 0, height := 0 } ∨
    ∃ r : Rect, RectInv b r ∧ b.calculate_largest_hole = r.hole := by
  simp only [Bin.calculate_largest_hole]
  split
  · exact Or.inl rfl
  · rename_i hd
    refine foldl_preserve (P := fun (acc : Hole × Nat) =>
      acc.1 = { width := 0, height := 0 } ∨ ∃ r : Rect, RectInv b r ∧ acc.1 = r.hole)
      (Or.inl rfl) ?_
    intro acc seed hseed hacc
    split
    · refine Or.inr ⟨grow_loop b (b.width + b.height) seed, ?_, rfl⟩
      obtain ⟨x, y, hx, hy, hval, rfl⟩ := calc_hole_seed_mem hseed
      refine grow_loop_rectinv ⟨Nat.le_refl _, Nat.le_refl _, hx, hy, ?_⟩
      intro a c ha1 ha2 hc1 hc2
      have hax : a = x := by
        have h1 : (⟨x, y, x, y⟩ : Rect).x0 = x := rfl
        have h2 : (⟨x, y, x, y⟩ : Rect).x1 = x := rfl
        omega
      have hcy : c = y := by
        have h1 : (⟨x, y, x, y⟩ : Rect).y0 = y := rfl
        have h2 : (⟨x, y, x, y⟩ : Rect).y1 = y := rfl
        omega
      subst hax; subst hcy
      by_cases hg : b.grid a c = true
      · exfalso
        have h0 := @transform_loop_mapinv I b b.width b.height
          (b.width * b.height + 2) 0 (fun x y => if b.grid x y then 0 else u32_MAX)
          (fun a' c' hg' => by simp [hg']) a c hg
        rw [h0] at hval
        exact hd hval.symm
      · revert hg; cases b.grid a c <;> simp
    · exact hacc

theorem calc_hole_dims_le {I : Type} (b : Bin I) :
    (b.calculate_largest_hole).width ≤ b.width ∧
    (b.calculate_largest_hole).height ≤ b.height := by
  rcases calc_hole_spec b with h | ⟨r, hr, h⟩
  · rw [h]
    exact ⟨Nat.zero_le _, Nat.zero_le _⟩
  · rw [h]
    obtain ⟨ha, hb', hc, hd, _⟩ := hr
    unfold Rect.hole
    exact ⟨by simp; omega, by simp; omega⟩

theorem grow_step_none_parts {I : Type} {b : Bin I} {r : Rect}
    (h : grow_step b r = none) :
    try_grow_horiz b r = none ∧ try_grow_vert b r = none := by
  unfold grow_step at h
  split at h
  · cases hh : try_grow_horiz b r with
    | some r' => simp only [hh] at h; cases h
    | none => simp only [hh] at h; exact ⟨rfl, h⟩
  · cases hv : try_grow_vert b r with
    | some r' => simp only [hv] at h; cases h
    | none => simp only [hv] at h; exact ⟨h, rfl⟩


theorem try_grow_horiz_none_empty {I : Type} {b : Bin I} {r : Rect}
    (hempty : ∀ a c, b.grid a c = false) (h : try_grow_horiz b r = none) :
    r.x0 = 0 ∧ r.x1 + 1 = b.width := by
  unfold try_grow_horiz at h
  by_cases h1 : (r.left_neighbors.map (fun n => n.is_obstructed b)).getD true = false
  · rw [if_pos h1] at h; cases h
  · rw [if_neg h1] at h
    by_cases h2 : ((r.right_neighbors b.width).map (fun n => n.is_obstructed b)).getD true =
        false
    · rw [if_pos h2] at h; cases h
    · constructor
      · by_contra h0
        apply h1
        unfold Rect.left_neighbors
        rw [if_neg h0]
        simp only [Option.map_some', Option.getD_some]
        exact is_obstructed_false_iff.mpr (fun a c _ _ _ _ => hempty a c)
      · by_contra h0
        apply h2
        unfold Rect.right_neighbors
        rw [if_neg h0]
        simp only [Option.map_some', Option.getD_some]
        exact is_obstructed_false_iff.mpr (fun a c _ _ _ _ => hempty a c)

theorem try_grow_vert_none_empty {I : Type} {b : Bin I} {r : Rect}
    (hempty : ∀ a c, b.grid a c = false) (h : try_grow_vert b r = none) :
    r.y0 = 0 ∧ r.y1 + 1 = b.height := by
  unfold try_grow_vert at h
  by_cases h1 : (r.top_neighbors.map (fun n => n.is_obstructed b)).getD true = false
  · rw [if_pos h1] at h; cases h
  · rw [if_neg h1] at h
    by_cases h2 : ((r.bottom_neighbors b.height).map (fun n => n.is_obstructed b)).getD
        true = false
    · rw [if_pos h2] at h; cases h
    · constructor
      · by_contra h0
        apply h1
        unfold Rect.top_neighbors
        rw [if_neg h0]
        simp only [Option.map_some', Option.getD_some]
        exact is_obstructed_false_iff.mpr (fun a c _ _ _ _ => hempty a c)
      · by_contra h0
        apply h2
        unfold Rect.bottom_neighbors
        rw [if_neg h0]
        simp only [Option.map_some', Option.getD_some]
        exact is_obstructed_false_iff.mpr (fun a c _ _ _ _ => hempty a c)

theorem grow_full {I : Type} {b : Bin I} {x y : Nat} (hx : x < b.width)
    (hy : y < b.height) (hempty : ∀ a c, b.grid a c = false) :
    (grow_loop b (b.width + b.height) (⟨x, y, x, y⟩ : Rect)).hole =
      { width := b.width, height := b.height } := by
  have hinv : RectInv b ⟨x, y, x, y⟩ :=
    ⟨Nat.le_refl _, Nat.le_refl _, hx, hy, fun a c _ _ _ _ => hempty a c⟩
  have hcond : (b.width - 1 - ((⟨x, y, x, y⟩ : Rect).x1 - (⟨x, y, x, y⟩ : Rect).x0)) +
      (b.height - 1 - ((⟨x, y, x, y⟩ : Rect).y1 - (⟨x, y, x, y⟩ : Rect).y0)) <
      b.width + b.height := by
    show (b.width - 1 - (x - x)) + (b.height - 1 - (y - y)) < b.width + b.height
    omega
  have hrfix := grow_loop_fix hinv hcond
  obtain ⟨hh, hv⟩ := grow_step_none_parts hrfix
  obtain ⟨hx0, hx1⟩ := try_grow_horiz_none_empty hempty hh
  obtain ⟨hy0, hy1⟩ := try_grow_vert_none_empty hempty hv
  unfold Rect.hole
  simp only [Hole.mk.injEq]
  omega

theorem transform_loop_progress_ge {W H : Nat} {fuel dist : Nat} {m : Nat → Nat → Nat}
    (hf : 1 ≤ fuel) (hp : (transform_pass W H dist m).2 = false) :
    dist + 1 ≤ (transform_loop W H fuel dist m).1 := by
  obtain ⟨f, rfl⟩ : ∃ f, fuel = f + 1 := ⟨fuel - 1, by omega⟩
  simp only [transform_loop, hp]
  exact transform_loop_dist_le f _ _

theorem first_pass_progress {I : Type} {b : Bin I} (hW : 1 ≤ b.width) (hH : 1 ≤ b.height)
    (hempty : ∀ a c, b.grid a c = false) :
    (transform_pass b.width b.height 0 (fun x y => if b.grid x y then 0 else u32_MAX)).2 =
      false := by
  by_contra hne
  have hp : (transform_pass b.width b.height 0
      (fun x y => if b.grid x y then 0 else u32_MAX)).2 = true := by
    revert hne
    cases (transform_pass b.width b.height 0
      (fun x y => if b.grid x y then 0 else u32_MAX)).2 <;> simp
  have hcell := (transform_pass_no_progress hp).2 0 hH 0 hW
  have hfire : (transform_cell b.width b.height 0 0 0
      ((fun x y => if b.grid x y then 0 else u32_MAX), true)).2 = false := by
    unfold transform_cell
    rw [if_pos (show ((fun x y => if b.grid x y then 0 else u32_MAX), true).1 0 0 =
      u32_MAX by simp [hempty 0 0])]
    rw [if_pos ?hany]
    case hany =>
      rw [List.any_eq_true]
      refine ⟨(-1, -1), by norm_num [nb_offsets], ?_⟩
      have hg : nb_get b.width b.height
          ((fun x y => if b.grid x y then 0 else u32_MAX), true).1
          ((0 : Nat) + (-1, -1).2) ((0 : Nat) + (-1, -1).1) = 0 := by
        unfold nb_get
        rw [if_neg]
        intro hcon
        have h1 := hcon.1
        norm_num at h1
      rw [hg]
      rfl
  rw [congrArg Prod.snd hcell] at hfire
  cases hfire

theorem fold_best_go {I : Type} (b : Bin I) (fuel : Nat) (WH : Hole) :
    ∀ (l : List Rect),
      (∀ seed ∈ l, (grow_loop b fuel seed).hole = WH) →
      (l.foldl (fun acc seed =>
        let r := grow_loop b fuel seed
        if b.measure r.hole > acc.2 then (r.hole, b.measure r.hole) else acc)
        (WH, b.measure WH)) = (WH, b.measure WH) := by
  intro l hl
  refine foldl_preserve (P := fun (acc : Hole × Nat) => acc = (WH, b.measure WH)) rfl ?_
  intro acc seed hseed hacc
  simp only [hl seed hseed, hacc]
  rw [if_neg (lt_irrefl _)]

theorem fold_best_const {I : Type} (b : Bin I) (fuel : Nat) (WH : Hole)
    (hpos : 0 < b.measure WH) :
    ∀ (l : List Rect),
      (∀ seed ∈ l, (grow_loop b fuel seed).hole = WH) → l ≠ [] →
      (l.foldl (fun acc seed =>
        let r := grow_loop b fuel seed
        if b.measure r.hole > acc.2 then (r.hole, b.measure r.hole) else acc)
        ({ width := 0, height := 0 }, 0)).1 = WH := by
  intro l hl hne
  obtain ⟨c, cs, rfl⟩ := List.exists_cons_of_ne_nil hne
  rw [List.foldl_cons]
  simp only [hl c (List.mem_cons_self c cs)]
  rw [if_pos hpos]
  rw [fold_best_go b fuel WH cs (fun s hs => hl s (List.mem_cons_of_mem c hs))]

theorem calc_hole_empty {I : Type} {b : Bin I} (hW : 1 ≤ b.width) (hH : 1 ≤ b.height)
    (hempty : ∀ x y, b.grid x y = false) (hmetric : b.metric = Hole.default_area) :
    b.calculate_largest_hole = { width := b.width, height := b.height } := by
  have hd1 : 1 ≤ (transform_loop b.width b.height (b.width * b.height + 2) 0
      (fun x y => if b.grid x y then 0 else u32_MAX)).1 :=
    transform_loop_progress_ge (by omega) (first_pass_progress hW hH hempty)
  have hex := @transform_loop_exists b.width b.height (b.width * b.height + 2) 0
    (fun x y => if b.grid x y then 0 else u32_MAX) (Or.inl rfl)
  rcases hex with hex | ⟨x, hx, y, hy, hval⟩
  · omega
  · simp only [Bin.calculate_largest_hole]
    rw [if_neg (by omega)]
    have hmem := calc_hole_seed_mem_mpr (W := b.width) (H := b.height) hx hy hval
    have hgrow : ∀ seed ∈ (List.range b.height).flatMap fun y =>
        (List.range b.width).filterMap fun x =>
          if (transform_loop b.width b.height (b.width * b.height + 2) 0
              (fun x y => if b.grid x y then 0 else u32_MAX)).2 x y =
             (transform_loop b.width b.height (b.width * b.height + 2) 0
              (fun x y => if b.grid x y then 0 else u32_MAX)).1
          then some (⟨x, y, x, y⟩ : Rect) else none,
        (grow_loop b (b.width + b.height) seed).hole =
          { width := b.width, height := b.height } := by
      intro seed hseed
      obtain ⟨x', y', hx', hy', _, rfl⟩ := calc_hole_seed_mem hseed
      exact grow_full hx' hy' hempty
    refine fold_best_const b (b.width + b.height) _ ?_ _ hgrow
      (List.ne_nil_of_mem hmem)
    show 0 < b.metric { width := b.width, height := b.height }
    rw [hmetric]
    exact Nat.mul_pos hW hH

/-! ### The `place_all` master lemma -/

/-- The bundled conclusion of the `place_all` case analysis, stated of the
final bin `b'` relative to the initial bin `b`. -/
def MasterConc {I : Type} (b : Bin I) (input : List (Item I)) (b' : Bin I) : Prop :=
  b'.width = b.width ∧ b'.height = b.height ∧ b'.metric = b.metric ∧
  (Bin.Wf b → Bin.Wf b') ∧
  (∀ p ∈ b'.items, p ∈ b.items ∨ ∃ it ∈ input, Consistent it p) ∧
  (Bin.Wf b → b'.items = [] → b.metric = Hole.default_area → 1 ≤ b.width →
    1 ≤ b.height → b'.largest_hole = { width := b.width, height := b.height })

theorem wf_items_empty_grid {I : Type} {b1 : Bin I} (hwf : Bin.Wf b1)
    (hit : b1.items = []) : ∀ x y, b1.grid x y = false := by
  intro x y
  cases hg : b1.grid x y with
  | false => rfl
  | true =>
    obtain ⟨p, hp, _⟩ := (hwf.2.2 x y).mp hg
    rw [hit] at hp
    cases hp

theorem master_exit_calc {I : Type} {b b1 : Bin I} {input : List (Item I)}
    (hww : b1.width = b.width) (hhh : b1.height = b.height) (hmm : b1.metric = b.metric)
    (hwf : Bin.Wf b → Bin.Wf b1)
    (hprov : ∀ p ∈ b1.items, p ∈ b.items ∨ ∃ it ∈ input, Consistent it p) :
    MasterConc b input { b1 with largest_hole := b1.calculate_largest_hole } := by
  refine ⟨hww, hhh, hmm, fun hw => wf_update_hole (hwf hw), hprov, ?_⟩
  intro hwfb hitems hmet hW hH
  have hwfb1 : Bin.Wf b1 := hwf hwfb
  have hit1 : b1.items = [] := hitems
  have hempty : ∀ x y, b1.grid x y = false := wf_items_empty_grid hwfb1 hit1
  show b1.calculate_largest_hole = _
  rw [calc_hole_empty (by rw [hww]; exact hW) (by rw [hhh]; exact hH) hempty
    (by rw [hmm]; exact hmet)]
  rw [hww, hhh]

theorem master_exit_max {I : Type} {b bx : Bin I} {input : List (Item I)}
    (hww : bx.width = b.width) (hhh : bx.height = b.height) (hmm : bx.metric = b.metric)
    (hwf : Bin.Wf b → Bin.Wf bx)
    (hprov : ∀ p ∈ bx.items, p ∈ b.items ∨ ∃ it ∈ input, Consistent it p)
    (hold : bx.largest_hole.width ≤ b.width ∧ bx.largest_hole.height ≤ b.height) :
    MasterConc b input
      (if bx.measure bx.calculate_largest_hole > bx.measure bx.largest_hole
       then { bx with largest_hole := bx.calculate_largest_hole } else bx) := by
  by_cases hc : bx.measure bx.calculate_largest_hole > bx.measure bx.largest_hole
  · rw [if_pos hc]
    refine ⟨hww, hhh, hmm, fun hw => wf_update_hole (hwf hw), hprov, ?_⟩
    intro hwfb hitems hmet hW hH
    have hempty : ∀ x y, bx.grid x y = false := wf_items_empty_grid (hwf hwfb) hitems
    show bx.calculate_largest_hole = _
    rw [calc_hole_empty (by rw [hww]; exact hW) (by rw [hhh]; exact hH) hempty
      (by rw [hmm]; exact hmet)]
    rw [hww, hhh]
  · rw [if_neg hc]
    refine ⟨hww, hhh, hmm, hwf, hprov, ?_⟩
    intro hwfb hitems hmet hW hH
    have hempty : ∀ x y, bx.grid x y = false := wf_items_empty_grid (hwf hwfb) hitems
    have hcalc : bx.calculate_largest_hole = { width := bx.width, height := bx.height } :=
      calc_hole_empty (by rw [hww]; exact hW) (by rw [hhh]; exact hH) hempty
        (by rw [hmm]; exact hmet)
    have hmeasure : ∀ hh : Hole, bx.measure hh = hh.width * hh.height := by
      intro hh
      show bx.metric hh = _
      rw [hmm, hmet]
      rfl
    rw [hcalc] at hc
    rw [hmeasure, hmeasure] at hc
    have hge : bx.width * bx.height ≤ bx.largest_hole.width * bx.largest_hole.height := by
      simp only [] at hc
      omega
    have how : bx.largest_hole.width ≤ bx.width := by rw [hww]; exact hold.1
    have hoh : bx.largest_hole.height ≤ bx.height := by rw [hhh]; exact hold.2
    have hW' : 1 ≤ bx.width := by rw [hww]; exact hW
    have hH' : 1 ≤ bx.height := by rw [hhh]; exact hH
    have e1 : bx.largest_hole.width * bx.largest_hole.height ≤
        bx.width * bx.largest_hole.height := Nat.mul_le_mul_right _ how
    have e2 : bx.height ≤ bx.largest_hole.height :=
      Nat.le_of_mul_le_mul_left (Nat.le_trans hge e1) (by omega)
    have e3 : bx.largest_hole.width * bx.largest_hole.height ≤
        bx.largest_hole.width * bx.height := Nat.mul_le_mul_left _ hoh
    have e4 : bx.width ≤ bx.largest_hole.width :=
      Nat.le_of_mul_le_mul_right (Nat.le_trans hge e3) (by omega)
    have hwid : bx.largest_hole.width = bx.width := by omega
    have hhei : bx.largest_hole.height = bx.height := by omega
    calc bx.largest_hole
        = { width := bx.largest_hole.width, height := bx.largest_hole.height } := rfl
      _ = { width := b.width, height := b.height } := by rw [hwid, hhei, hww, hhh]

theorem place_all_master {I : Type} {b : Bin I} {input : List (Item I)}
    {cancel : Nat → Bool} {r : Bool} {b' : Bin I}
    (h : b.place_all input cancel = some (r, b')) : MasterConc b input b' := by
  simp only [Bin.place_all] at h
  split at h
  · cases h
  · rename_i r1 b1 k1 h1
    obtain ⟨hw1, hh1, hm1, hl1, hwf1, placed1, hit1, hcons1⟩ := place_all_impl_spec h1
    have hprov1 : ∀ p ∈ b1.items, p ∈ b.items ∨ ∃ it ∈ input, Consistent it p := by
      intro p hp
      rw [hit1] at hp
      rcases List.mem_append.mp hp with hp | hp
      · exact Or.inl hp
      · obtain ⟨it, hit, hcons⟩ := hcons1 p hp
        exact Or.inr ⟨it, mem_sort_by_size_desc.mp hit, hcons⟩
    by_cases hr1 : r1 = true
    · rw [if_pos hr1] at h
      cases h
      exact master_exit_calc hw1 hh1 hm1 hwf1 hprov1
    · rw [if_neg hr1] at h
      by_cases har : ((sort_by_size_desc input).any fun x => x.allow_rotate) = false
      · rw [if_pos har] at h
        cases h
        exact master_exit_calc hw1 hh1 hm1 hwf1 hprov1
      · rw [if_neg har] at h
        by_cases hck1 : cancel k1 = true
        · rw [if_pos hck1] at h
          cases h
          exact master_exit_calc hw1 hh1 hm1 hwf1 hprov1
        · rw [if_neg hck1] at h
          split at h
          · cases h
          · rename_i r2 b2 k2 h2
            obtain ⟨hw2, hh2, hm2, hl2, hwf2, placed2, hit2, hcons2⟩ :=
              place_all_impl_spec h2
            have hw2' : b2.width = b.width := hw2.trans hw1
            have hh2' : b2.height = b.height := hh2.trans hh1
            have hm2' : b2.metric = b.metric := hm2.trans hm1
            have hwfb2 : Bin.Wf b2 := hwf2 (wf_clear_state _)
            have hl2' : b2.largest_hole = b1.calculate_largest_hole := hl2
            have hprov2 : ∀ p ∈ b2.items, p ∈ b.items ∨ ∃ it ∈ input, Consistent it p := by
              intro p hp
              rw [hit2] at hp
              rcases List.mem_append.mp hp with hp | hp
              · simp [Bin.clear_state] at hp
              · obtain ⟨it, hit, hcons⟩ := hcons2 p hp
                exact Or.inr ⟨it, mem_sort_by_size_desc.mp hit, hcons⟩
            have hold2 : b2.largest_hole.width ≤ b.width ∧
                b2.largest_hole.height ≤ b.height := by
              rw [hl2']
              have hd := calc_hole_dims_le b1
              rw [hw1, hh1] at hd
              exact hd
            by_cases hr2 : r2 = true
            · rw [if_pos hr2] at h
              cases h
              exact master_exit_calc hw2' hh2' hm2' (fun _ => hwfb2) hprov2
            · rw [if_neg hr2] at h
              by_cases hck2 : cancel k2 = true
              · rw [if_pos hck2] at h
                cases h
                exact master_exit_max hw2' hh2' hm2' (fun _ => hwfb2) hprov2 hold2
              · rw [if_neg hck2] at h
                split at h
                · cases h
                · rename_i r3 b3 k3 h3
                  obtain ⟨hw3, hh3, hm3, hl3, hwf3, placed3, hit3, hcons3⟩ :=
                    place_all_impl_spec h3
                  cases h
                  have hw3' : b3.width = b.width := by
                    rw [hw3]
                    split
                    · exact hw2'
                    · exact hw2'
                  have hh3' : b3.height = b.height := by
                    rw [hh3]
                    split
                    · exact hh2'
                    · exact hh2'
                  have hm3' : b3.metric = b.metric := by
                    rw [hm3]
                    split
                    · exact hm2'
                    · exact hm2'
                  have hwfb3 : Bin.Wf b3 := hwf3 (wf_clear_state _)
                  have hprov3 : ∀ p ∈ b3.items,
                      p ∈ b.items ∨ ∃ it ∈ input, Consistent it p := by
                    intro p hp
                    rw [hit3] at hp
                    rcases List.mem_append.mp hp with hp | hp
                    · simp [Bin.clear_state] at hp
                    · obtain ⟨it, hit, hcons⟩ := hcons3 p hp
                      exact Or.inr ⟨it, mem_sort_by_size_desc.mp hit, hcons⟩
                  have hold3 : b3.largest_hole.width ≤ b.width ∧
                      b3.largest_hole.height ≤ b.height := by
                    rw [hl3]
                    by_cases hcb : b2.measure b2.calculate_largest_hole >
                        b2.measure b2.largest_hole
                    · rw [if_pos hcb]
                      show (b2.calculate_largest_hole).width ≤ b.width ∧
                        (b2.calculate_largest_hole).height ≤ b.height
                      have hd := calc_hole_dims_le b2
                      rw [hw2', hh2'] at hd
                      exact hd
                    · rw [if_neg hcb]
                      exact hold2
                  exact master_exit_max hw3' hh3' hm3' (fun _ => hwfb3) hprov3 hold3

/-! ### Helper lemmas for the claims -/

theorem wf_new {I : Type} {W H : Nat} {b : Bin I} (h : Bin.new W H = some b) :
    Bin.Wf b := by
  unfold Bin.new at h
  split at h
  · cases h
  · cases h
    exact ⟨by simp, List.Pairwise.nil, by intro x y; simp⟩

theorem add_const_true {I : Type} {b : Bin I} {it : Item I} {strat : Strategy} {k : Nat}
    (hw : 0 < it.w) (hh : 0 < it.h) :
    ∃ k', b.add_to_best_fit it strat (fun _ => true) k = some (false, b, k') := by
  unfold Bin.add_to_best_fit
  rw [if_neg (by omega)]
  by_cases htr : it.w > b.width ∧ it.h > b.height
  · rw [if_pos htr]
    exact ⟨k, rfl⟩
  · rw [if_neg htr]
    cases hrows : List.range (row_count b it) with
    | nil => exact ⟨k, rfl⟩
    | cons y rest =>
      have hbr : best_fit_rows b it strat (fun _ => true) (y :: rest) usize_MAX none k =
          ScanOut.canceled (k + 1) := rfl
      rw [hbr]
      exact ⟨k + 1, rfl⟩

theorem place_all_const_true {I : Type} {b : Bin I} {items : List (Item I)}
    (hstart : b.items = []) (hne : items ≠ [])
    (hvalid : ∀ it ∈ items, 0 < it.w ∧ 0 < it.h) :
    ∃ b', b.place_all items (fun _ => true) = some (false, b') ∧ b'.items = [] ∧
      b'.largest_hole = b.calculate_largest_hole ∧
      b'.width = b.width ∧ b'.height = b.height := by
  have hsne : sort_by_size_desc items ≠ [] := by
    obtain ⟨a, ha⟩ := List.exists_mem_of_ne_nil items hne
    exact List.ne_nil_of_mem (mem_sort_by_size_desc.mpr ha)
  obtain ⟨it0, rest, hsort⟩ := List.exists_cons_of_ne_nil hsne
  have hv0 : 0 < it0.w ∧ 0 < it0.h :=
    hvalid it0 (mem_sort_by_size_desc.mp (hsort ▸ List.mem_cons_self it0 rest))
  obtain ⟨k0, hadd⟩ := @add_const_true I b it0 Strategy.DoNotRotate 0 hv0.1 hv0.2
  have himpl : place_all_impl Strategy.DoNotRotate (fun _ => true) b
      (sort_by_size_desc items) 0 true = some (false, b, k0 + 1) := by
    rw [hsort]
    simp only [place_all_impl, hadd]
    rw [if_pos trivial]
  simp only [Bin.place_all, himpl]
  rw [if_neg (by simp)]
  by_cases har : ((sort_by_size_desc items).any fun x => x.allow_rotate) = false
  · rw [if_pos har]
    exact ⟨_, rfl, hstart, rfl, rfl, rfl⟩
  · rw [if_neg har]
    exact ⟨_, rfl, hstart, rfl, rfl, rfl⟩

theorem best_fit_cell_rotate_skip {I : Type} {b : Bin I} {it : Item I}
    (hrot : it.allow_rotate = false) (y : Nat) (st : ScanSt) (x : Nat) :
    (best_fit_cell b it Strategy.Rotate y st x).cur_best = st.cur_best ∧
    (best_fit_cell b it Strategy.Rotate y st x).best = st.best := by
  unfold best_fit_cell
  simp [hrot]

theorem best_fit_row_rotate_skip {I : Type} {b : Bin I} {it : Item I}
    (hrot : it.allow_rotate = false) (y cb : Nat) (bf : Option (Nat × Nat × Bool)) :
    (best_fit_row b it Strategy.Rotate y cb bf).cur_best = cb ∧
    (best_fit_row b it Strategy.Rotate y cb bf).best = bf := by
  refine foldl_preserve
    (P := fun (st : ScanSt) => st.cur_best = cb ∧ st.best = bf) ⟨rfl, rfl⟩ ?_
  intro st x _ hst
  have h := best_fit_cell_rotate_skip (b := b) hrot y st x
  exact ⟨h.1.trans hst.1, h.2.trans hst.2⟩

theorem best_fit_rows_rotate {I : Type} {b : Bin I} {it : Item I} {cancel : Nat → Bool}
    (hrot : it.allow_rotate = false) :
    ∀ (rows : List Nat) (cb k : Nat),
      (∃ k', best_fit_rows b it Strategy.Rotate cancel rows cb none k =
        ScanOut.canceled k') ∨
      (∃ k', best_fit_rows b it Strategy.Rotate cancel rows cb none k =
        ScanOut.done none k')
  | [], cb, k => Or.inr ⟨k, rfl⟩
  | y :: rest, cb, k => by
    simp only [best_fit_rows]
    by_cases hc : cancel k = true
    · rw [if_pos hc]
      exact Or.inl ⟨k + 1, rfl⟩
    · rw [if_neg hc]
      have hskip := best_fit_row_rotate_skip (b := b) hrot y cb none
      rw [if_neg (by rw [hskip.2]; simp)]
      rw [hskip.2]
      exact best_fit_rows_rotate hrot rest (best_fit_row b it Strategy.Rotate y cb none).cur_best (k + 1)

/-! ### Characterizing the early termination of the best-fit row loop -/

theorem row_had_busy {I : Type} {b : Bin I} {it : Item I} {strat : Strategy} {y : Nat} :
    ∀ (l : List Nat) (st : ScanSt),
      ((l.foldl (best_fit_cell b it strat y) st).had_busy = false ↔
        (st.had_busy = false ∧ ∀ x ∈ l, b.grid x y = false))
  | [], st => by simp
  | x :: t, st => by
    rw [List.foldl_cons, row_had_busy t]
    have hproj : (best_fit_cell b it strat y st x).had_busy =
        (st.had_busy || b.grid x y) := rfl
    rw [hproj, Bool.or_eq_false_iff]
    constructor
    · rintro ⟨⟨h1, h2⟩, h3⟩
      refine ⟨h1, fun x' hx' => ?_⟩
      rcases List.mem_cons.mp hx' with rfl | hx'
      · exact h2
      · exact h3 x' hx'
    · rintro ⟨h1, h2⟩
      exact ⟨⟨h1, h2 x (List.mem_cons_self x t)⟩,
        fun x' hx' => h2 x' (List.mem_cons_of_mem x hx')⟩

theorem consider_curinv {s : Nat × Option (Nat × Nat × Bool)} {cand : Option Nat}
    {pos : Nat × Nat × Bool} (h : CurInv s.1 s.2) :
    CurInv (consider s cand pos).1 (consider s cand pos).2 := by
  rcases consider_cases s cand pos with hc | ⟨fit, hfit, hlt, hc⟩
  · rw [hc]; exact h
  · rw [hc]; intro hn; cases hn

theorem consider_isSome_mono {s : Nat × Option (Nat × Nat × Bool)} {cand : Option Nat}
    {pos : Nat × Nat × Bool} (h : s.2.isSome = true) :
    (consider s cand pos).2.isSome = true := by
  rcases consider_cases s cand pos with hc | ⟨fit, hfit, hlt, hc⟩ <;> rw [hc]
  · exact h
  · rfl

theorem consider_fires {s : Nat × Option (Nat × Nat × Bool)} {fit : Nat}
    {pos : Nat × Nat × Bool} (hcur : CurInv s.1 s.2) (hfit : fit < usize_MAX) :
    (consider s (some fit) pos).2.isSome = true := by
  cases hs : s.2 with
  | some v => exact consider_isSome_mono (by rw [hs]; rfl)
  | none =>
    have hmax := hcur hs
    show (if fit < s.1 then (fit, some pos) else s).2.isSome = true
    rw [if_pos (by rw [hmax]; exact hfit)]
    rfl

theorem consider_isSome_inv {s : Nat × Option (Nat × Nat × Bool)} {cand : Option Nat}
    {pos : Nat × Nat × Bool} (h : (consider s cand pos).2.isSome = true) :
    s.2.isSome = true ∨ cand.isSome = true := by
  rcases consider_cases s cand pos with hc | ⟨fit, hfit, hlt, hc⟩
  · rw [hc] at h; exact Or.inl h
  · exact Or.inr (by rw [hfit]; rfl)

theorem gconsider_char {s : Nat × Option (Nat × Nat × Bool)} {c : Prop} [Decidable c]
    {cand : Option Nat} {pos : Nat × Nat × Bool}
    (hcur : CurInv s.1 s.2) (hlt : ∀ fit, cand = some fit → fit < usize_MAX) :
    (((if c then consider s cand pos else s).2.isSome = true) ↔
      (s.2.isSome = true ∨ (c ∧ cand.isSome = true))) ∧
    CurInv (if c then consider s cand pos else s).1
      (if c then consider s cand pos else s).2 := by
  by_cases hcP : c
  · rw [if_pos hcP]
    refine ⟨⟨?_, ?_⟩, consider_curinv hcur⟩
    · intro h
      rcases consider_isSome_inv h with h | h
      · exact Or.inl h
      · exact Or.inr ⟨hcP, h⟩
    · intro h
      rcases h with h | ⟨_, h⟩
      · exact consider_isSome_mono h
      · obtain ⟨fit, hfit⟩ := Option.isSome_iff_exists.mp h
        rw [hfit]
        exact consider_fires hcur (hlt fit hfit)
  · rw [if_neg hcP]
    refine ⟨⟨fun h => Or.inl h, fun h => ?_⟩, hcur⟩
    rcases h with h | ⟨hc, _⟩
    · exact h
    · exact absurd hc hcP

set_option maxHeartbeats 1600000 in
theorem cell_best_char {I : Type} {b : Bin I} {it : Item I} {strat : Strategy} {y x : Nat}
    {st : ScanSt} (hbound : 2 * (b.width + b.height) < usize_MAX)
    (hcur : CurInv st.cur_best st.best) :
    ((best_fit_cell b it strat y st x).best.isSome = true ↔
      (st.best.isSome = true ∨ AnchorFeasible b it strat x y)) ∧
    CurInv (best_fit_cell b it strat y st x).cur_best
      (best_fit_cell b it strat y st x).best := by
  have hlt_o : ∀ fit, b.evaluate_fit x y it.w it.h = some fit → fit < usize_MAX :=
    fun fit hf => lt_of_le_of_lt (evaluate_fit_points_le hf) hbound
  have hlt_r : ∀ fit, b.evaluate_fit x y it.h it.w = some fit → fit < usize_MAX :=
    fun fit hf => lt_of_le_of_lt (evaluate_fit_points_le hf) hbound
  obtain ⟨hiff1, hcur1⟩ := @gconsider_char (st.cur_best, st.best)
    (strat = Strategy.DoNotRotate ∨ strat = Strategy.RotateIfSuitable) _
    (b.evaluate_fit x y it.w it.h) (x, y, false) hcur hlt_o
  obtain ⟨hiff2, hcur2⟩ := @gconsider_char
    (if strat = Strategy.DoNotRotate ∨ strat = Strategy.RotateIfSuitable
      then consider (st.cur_best, st.best) (b.evaluate_fit x y it.w it.h) (x, y, false)
      else (st.cur_best, st.best))
    (it.allow_rotate = true ∧
      (strat = Strategy.Rotate ∨ strat = Strategy.RotateIfSuitable)) _
    (b.evaluate_fit x y it.h it.w) (x, y, true) hcur1 hlt_r
  refine ⟨?_, hcur2⟩
  rw [show (best_fit_cell b it strat y st x).best =
    (if it.allow_rotate = true ∧
        (strat = Strategy.Rotate ∨ strat = Strategy.RotateIfSuitable)
      then consider (if strat = Strategy.DoNotRotate ∨ strat = Strategy.RotateIfSuitable
        then consider (st.cur_best, st.best) (b.evaluate_fit x y it.w it.h) (x, y, false)
        else (st.cur_best, st.best)) (b.evaluate_fit x y it.h it.w) (x, y, true)
      else (if strat = Strategy.DoNotRotate ∨ strat = Strategy.RotateIfSuitable
        then consider (st.cur_best, st.best) (b.evaluate_fit x y it.w it.h) (x, y, false)
        else (st.cur_best, st.best))).2 from rfl]
  rw [hiff2, hiff1]
  unfold AnchorFeasible
  tauto

theorem row_best_char {I : Type} {b : Bin I} {it : Item I} {strat : Strategy} {y : Nat}
    (hbound : 2 * (b.width + b.height) < usize_MAX) :
    ∀ (l : List Nat) (st : ScanSt), CurInv st.cur_best st.best →
      (((l.foldl (best_fit_cell b it strat y) st).best.isSome = true) ↔
        (st.best.isSome = true ∨ ∃ x ∈ l, AnchorFeasible b it strat x y)) ∧
      CurInv (l.foldl (best_fit_cell b it strat y) st).cur_best
        (l.foldl (best_fit_cell b it strat y) st).best
  | [], st, hcur => ⟨by simp, hcur⟩
  | x :: t, st, hcur => by
    rw [List.foldl_cons]
    obtain ⟨hiff1, hcur1⟩ := @cell_best_char I b it strat y x st hbound hcur
    obtain ⟨hiff2, hcur2⟩ := row_best_char hbound t (best_fit_cell b it strat y st x) hcur1
    refine ⟨?_, hcur2⟩
    rw [hiff2, hiff1]
    constructor
    · rintro ((h | h) | ⟨x', hx', h⟩)
      · exact Or.inl h
      · exact Or.inr ⟨x, List.mem_cons_self x t, h⟩
      · exact Or.inr ⟨x', List.mem_cons_of_mem x hx', h⟩
    · rintro (h | ⟨x', hx', h⟩)
      · exact Or.inl (Or.inl h)
      · rcases List.mem_cons.mp hx' with rfl | hx'
        · exact Or.inl (Or.inr h)
        · exact Or.inr ⟨x', hx', h⟩

/-! ### The claims -/

/-- C1: at every point where the solution is externally observable, each
`PlacedItem`'s half-open rectangle `[x0,x1) × [y0,y1)` lies entirely within
`[0,width) × [0,height)` of the bin, and the rectangles of distinct placed
items do not intersect.  The invariant (`Bin.Wf`, which additionally records
that the occupancy grid holds exactly the covered cells) is established by
`Bin.new` (see `wf_new`) and preserved by `place_all`, the only operation
that mutates packing state. -/
theorem C1_solution_invariant {I : Type} {b : Bin I} {input : List (Item I)}
    {cancel : Nat → Bool} {r : Bool} {b' : Bin I}
    (hwf : Bin.Wf b) (h : b.place_all input cancel = some (r, b')) :
    (∀ p ∈ b'.solution, p.x1 ≤ b'.width ∧ p.y1 ≤ b'.height) ∧
    b'.solution.Pairwise PlacedItem.disjoint ∧ Bin.Wf b' := by
  have hwf' := (place_all_master h).2.2.2.1 hwf
  exact ⟨hwf'.1, hwf'.2.1, hwf'⟩

/-- C1 witness: the invariant, evaluated on a concrete run. -/
theorem C1_witness :
    (∀ p ∈ tiny_run.2.solution, p.x1 ≤ tiny_run.2.width ∧ p.y1 ≤ tiny_run.2.height) ∧
    tiny_run.2.solution.Pairwise PlacedItem.disjoint ∧ Bin.Wf tiny_run.2 :=
  @C1_solution_invariant Nat (new_bin Nat 3 3) [⟨2, 2, true, 0⟩]
    (fun _ => false) tiny_run.1 tiny_run.2 (wf_new (W := 3) (H := 3) rfl) rfl

/-- C2 counterexample: in a pass with strategy `Rotate`, a non-rotatable
2×2 item is placed into an empty 5×5 bin in NO orientation: the call scans
all four anchor rows (four cancellation polls) and returns false with
nothing placed, even though the item fits in its original orientation at
`(0,0)` (`evaluate_fit` succeeds with score 4).  This refutes the claim that
non-rotatable items are evaluated in their original orientation during
pass 2 and can still be placed there. -/
theorem C2_counterexample :
    (((new_bin Nat 5 5).add_to_best_fit ⟨2, 2, false, 0⟩ Strategy.Rotate
      (fun _ => false) 0).map (fun res => (res.1, res.2.1.solution.length, res.2.2)) =
      some (false, 0, 4)) ∧
    (new_bin Nat 5 5).evaluate_fit 0 0 2 2 = some 4 := by
  decide

/-- C2 (amended): in pass 2 of `place_all` (strategy `Rotate`), every item
with `allow_rotate = true` is evaluated only in its rotated orientation,
while an item with `allow_rotate = false` is evaluated in NO orientation at
all, so it can never be placed during pass 2: for any valid non-rotatable
item, `add_to_best_fit` under `Strategy.Rotate` returns false and leaves
the bin unchanged. -/
theorem C2_rotate_pass_skips_nonrotatable {I : Type} {b : Bin I} {it : Item I}
    {cancel : Nat → Bool} {k : Nat}
    (hrot : it.allow_rotate = false) (hw : 0 < it.w) (hh : 0 < it.h) :
    ∃ k', b.add_to_best_fit it Strategy.Rotate cancel k = some (false, b, k') := by
  unfold Bin.add_to_best_fit
  rw [if_neg (by omega)]
  by_cases htr : it.w > b.width ∧ it.h > b.height
  · rw [if_pos htr]
    exact ⟨k, rfl⟩
  · rw [if_neg htr]
    rcases @best_fit_rows_rotate I b it cancel hrot
        (List.range (row_count b it)) usize_MAX k with ⟨k', hk⟩ | ⟨k', hk⟩
    · rw [hk]
      exact ⟨k', rfl⟩
    · rw [hk]
      exact ⟨k', rfl⟩

/-- C2 witness: the amended claim on a concrete non-rotatable item. -/
theorem C2_witness :
    ∃ k', (new_bin Nat 4 4).add_to_best_fit ⟨1, 2, false, 9⟩ Strategy.Rotate
      (fun _ => false) 0 = some (false, new_bin Nat 4 4, k') :=
  C2_rotate_pass_skips_nonrotatable rfl (by decide) (by decide)

/-- C3: Scenario A.  For a 10×10 bin with the default metric and an
always-false cancel predicate, `place_all` on the documented item sequence
returns true and the solution, in order, is exactly D at `(0,0)-(10,3)`
unrotated, A at `(0,3)-(10,6)` unrotated, B at `(0,6)-(10,9)` unrotated and
C rotated at `(0,9)-(10,10)`. -/
theorem C3_scenario_a :
    ((new_bin Char 10 10).place_all scenario_a_items (fun _ => false)).map
      (fun res => (res.1, res.2.solution)) =
    some (true, [⟨0, 0, 10, 3, false, 'D'⟩, ⟨0, 3, 10, 6, false, 'A'⟩,
      ⟨0, 6, 10, 9, false, 'B'⟩, ⟨0, 9, 10, 10, true, 'C'⟩]) := by
  decide

/-- C4: for every run of `place_all` from a bin with an empty solution,
every placed item in the resulting solution stems from an input item with
the same id; if it is rotated then that item allows rotation and the placed
extents are the item's dimensions swapped, and if it is not rotated the
extents equal the dimensions unswapped. -/
theorem C4_rotation_consistency {I : Type} {b : Bin I} {input : List (Item I)}
    {cancel : Nat → Bool} {r : Bool} {b' : Bin I}
    (hstart : b.items = []) (h : b.place_all input cancel = some (r, b')) :
    ∀ p ∈ b'.solution, ∃ it ∈ input, p.id = it.id ∧
      (p.rotated = true → it.allow_rotate = true ∧ p.x1 - p.x0 = it.h ∧
        p.y1 - p.y0 = it.w) ∧
      (p.rotated = false → p.x1 - p.x0 = it.w ∧ p.y1 - p.y0 = it.h) := by
  intro p hp
  rcases (place_all_master h).2.2.2.2.1 p hp with hp' | ⟨it, hit, hc⟩
  · rw [hstart] at hp'
    cases hp'
  · exact ⟨it, hit, hc⟩

/-- C4 witness: the consistency facts for the item placed by a concrete
run. -/
theorem C4_witness :
    ∃ it ∈ ([⟨2, 3, true, 7⟩] : List (Item Nat)),
      (⟨0, 0, 2, 3, false, 7⟩ : PlacedItem Nat).id = it.id ∧
      ((⟨0, 0, 2, 3, false, 7⟩ : PlacedItem Nat).rotated = true →
        it.allow_rotate = true ∧
        (⟨0, 0, 2, 3, false, 7⟩ : PlacedItem Nat).x1 -
          (⟨0, 0, 2, 3, false, 7⟩ : PlacedItem Nat).x0 = it.h ∧
        (⟨0, 0, 2, 3, false, 7⟩ : PlacedItem Nat).y1 -
          (⟨0, 0, 2, 3, false, 7⟩ : PlacedItem Nat).y0 = it.w) ∧
      ((⟨0, 0, 2, 3, false, 7⟩ : PlacedItem Nat).rotated = false →
        (⟨0, 0, 2, 3, false, 7⟩ : PlacedItem Nat).x1 -
          (⟨0, 0, 2, 3, false, 7⟩ : PlacedItem Nat).x0 = it.w ∧
        (⟨0, 0, 2, 3, false, 7⟩ : PlacedItem Nat).y1 -
          (⟨0, 0, 2, 3, false, 7⟩ : PlacedItem Nat).y0 = it.h) :=
  @C4_rotation_consistency Nat (new_bin Nat 4 4) [⟨2, 3, true, 7⟩]
    (fun _ => false) small_run.1 small_run.2 rfl rfl
    ⟨0, 0, 2, 3, false, 7⟩ (by decide)

/-- C5 counterexample: a cancellation predicate that returns true at the
very first poll (and false at every later poll) does NOT make `place_all`
return false: pass 1 fails because its scan is cancelled, but pass 2 then
runs with the now-false predicate, places the item rotated, and the call
returns true with one placed item.  This refutes the claim that a predicate
returning true at the very first poll makes `place_all` abort and return
false. -/
theorem C5_counterexample :
    ((new_bin Nat 4 4).place_all [⟨2, 2, true, 0⟩] (fun k => k == 0)).map
      (fun res => (res.1, res.2.solution.length)) = some (true, 1) := by
  decide

/-- C5 (amended): for a bin with an empty solution and a nonempty sequence
of valid items (both dimensions positive, the `Item` invariant), a
cancellation predicate that returns true at every poll makes `place_all`
return false with an empty solution and without the fatal zero-dimension
failure (the result is `some`, i.e. no panic). -/
theorem C5_cancel_all_polls {I : Type} {b : Bin I} {items : List (Item I)}
    (hstart : b.items = []) (hne : items ≠ [])
    (hvalid : ∀ it ∈ items, 0 < it.w ∧ 0 < it.h) :
    ∃ b', b.place_all items (fun _ => true) = some (false, b') ∧ b'.solution = [] := by
  obtain ⟨b', h1, h2, _, _, _⟩ := place_all_const_true hstart hne hvalid
  exact ⟨b', h1, h2⟩

/-- C5 witness: the amended claim on a concrete bin and item list. -/
theorem C5_witness :
    ∃ b', (new_bin Nat 3 3).place_all [⟨2, 2, true, 1⟩] (fun _ => true) =
      some (false, b') ∧ b'.solution = [] :=
  C5_cancel_all_polls rfl (by decide) (by decide)

/-- C6 counterexample: with a cancellation predicate that returns true at
EVERY poll, `place_all` on a 3×3 bin still stores the complete largest hole
{3,3} of the (still empty) grid: `calculate_largest_hole` — the distance
transform and the greedy rectangle growth — takes no cancellation predicate
at all and runs to completion, so the largest-hole computation inside
`place_all` is not responsive to cancellation and never returns early with
failure. -/
theorem C6_counterexample :
    ((new_bin Nat 3 3).place_all [⟨2, 2, true, 0⟩] (fun _ => true)).map
      (fun res => (res.1, res.2.get_largest_hole, res.2.solution.length)) =
    some (false, { width := 3, height := 3 }, 0) := by
  decide

/-- C6 (amended): only the per-item best-fit scan polls the cancellation
predicate (once per scanned row; `place_all` additionally polls once per
item and before each rotated pass).  The distance transform and the greedy
rectangle growth never poll it: `calculate_largest_hole` is a pure function
of the grid, and even under a constantly-true predicate the hole reported
after `place_all` is the fully computed `calculate_largest_hole` of the
grid the aborted pass left behind. -/
theorem C6_hole_not_cancellable {I : Type} {b : Bin I} {items : List (Item I)}
    (hstart : b.items = []) (hne : items ≠ [])
    (hvalid : ∀ it ∈ items, 0 < it.w ∧ 0 < it.h) :
    ∃ b', b.place_all items (fun _ => true) = some (false, b') ∧
      b'.get_largest_hole = b.calculate_largest_hole := by
  obtain ⟨b', h1, _, h3, _, _⟩ := place_all_const_true hstart hne hvalid
  exact ⟨b', h1, h3⟩

/-- C6 witness: the amended claim on a concrete bin and item list. -/
theorem C6_witness :
    ∃ b', (new_bin Nat 2 2).place_all [⟨1, 2, false, 4⟩] (fun _ => true) =
      some (false, b') ∧
      b'.get_largest_hole = (new_bin Nat 2 2).calculate_largest_hole :=
  C6_hole_not_cancellable rfl (by decide) (by decide)

/-- C7: with the default metric, after a `place_all` call into a bin
constructed by `Bin::new` with dimensions W×H that places nothing (the
final solution is empty — for example on an empty item sequence),
`get_largest_hole` returns exactly {W, H}. -/
theorem C7_empty_hole {I : Type} {W H : Nat} {b : Bin I} {input : List (Item I)}
    {cancel : Nat → Bool} {r : Bool} {b' : Bin I}
    (hnew : Bin.new W H = some b) (h : b.place_all input cancel = some (r, b'))
    (hempty : b'.solution = []) :
    b'.get_largest_hole = { width := W, height := H } := by
  have hm := place_all_master h
  unfold Bin.new at hnew
  split at hnew
  · cases hnew
  · rename_i hdim
    push_neg at hdim
    cases hnew
    exact hm.2.2.2.2.2 ⟨by simp, List.Pairwise.nil, by intro x y; simp⟩ hempty rfl
      (by show 1 ≤ W; omega) (by show 1 ≤ H; omega)

/-- C7 witness: the empty item sequence on a 3×3 bin, with a constantly
true cancellation predicate. -/
theorem C7_witness : empty_run.2.get_largest_hole = { width := 3, height := 3 } :=
  @C7_empty_hole Nat 3 3 (new_bin Nat 3 3) [] (fun _ => true)
    empty_run.1 empty_run.2 rfl rfl rfl

/-- C8 counterexample: scanning a 1×1 item over an empty 3×3 bin, the row
loop stops after the very first row — exactly one cancellation poll is
consumed although `row_count` is 3 — because a feasible candidate was found
in the CURRENT row; no feasible candidate had been found in any EARLIER row
(row 0 is the first).  This refutes the claim that the loop stops exactly
when no occupied cell was observed and a candidate had already been found
in an earlier row. -/
theorem C8_counterexample :
    (((new_bin Nat 3 3).add_to_best_fit ⟨1, 1, false, 0⟩ Strategy.DoNotRotate
      (fun _ => false) 0).map (fun res => (res.1, res.2.2)) = some (true, 1)) ∧
    row_count (new_bin Nat 3 3) ⟨1, 1, false, 0⟩ = 3 := by
  decide

/-- C8 (amended): when the row's cancellation poll is false, a step of the
row loop stops advancing to further rows exactly when no occupied cell was
observed in the row's scanned x-range and a feasible candidate has been
found in this row or an earlier one (an earlier candidate is the `bf`
argument, whose score invariant `CurInv` the scan maintains; the bound
hypothesis says a feasibility score, at most `2*(width+height)`, always
beats the initial `usize::MAX`). -/
theorem C8_early_stop_char {I : Type} {b : Bin I} {it : Item I} {strat : Strategy}
    {cancel : Nat → Bool} {y : Nat} {rest : List Nat} {cb : Nat}
    {bf : Option (Nat × Nat × Bool)} {k : Nat}
    (hcancel : cancel k = false) (hbound : 2 * (b.width + b.height) < usize_MAX)
    (hcur : CurInv cb bf) :
    ((RowAllFree b it y ∧ (bf.isSome = true ∨ ∃ x, x < col_count b it ∧
        AnchorFeasible b it strat x y)) →
      best_fit_rows b it strat cancel (y :: rest) cb bf k =
        ScanOut.done (best_fit_row b it strat y cb bf).best (k + 1)) ∧
    (¬(RowAllFree b it y ∧ (bf.isSome = true ∨ ∃ x, x < col_count b it ∧
        AnchorFeasible b it strat x y)) →
      best_fit_rows b it strat cancel (y :: rest) cb bf k =
        best_fit_rows b it strat cancel rest (best_fit_row b it strat y cb bf).cur_best
          (best_fit_row b it strat y cb bf).best (k + 1)) := by
  have hA : ((best_fit_row b it strat y cb bf).had_busy = false) ↔ RowAllFree b it y := by
    unfold best_fit_row
    rw [row_had_busy]
    unfold RowAllFree
    simp [List.mem_range]
  have hB := @row_best_char I b it strat y hbound
    (List.range (col_count b it)) ⟨false, cb, bf⟩ hcur
  have hB1 : ((best_fit_row b it strat y cb bf).best.isSome = true) ↔
      (bf.isSome = true ∨ ∃ x, x < col_count b it ∧ AnchorFeasible b it strat x y) := by
    unfold best_fit_row
    rw [hB.1]
    simp [List.mem_range]
  constructor
  · rintro ⟨hfree, hsome⟩
    simp only [best_fit_rows]
    rw [if_neg (by simp [hcancel])]
    rw [if_pos ⟨hA.mpr hfree, hB1.mpr hsome⟩]
  · intro hn
    simp only [best_fit_rows]
    rw [if_neg (by simp [hcancel])]
    rw [if_neg (fun hcond => hn ⟨hA.mp hcond.1, hB1.mp hcond.2⟩)]

/-- C8 witness: the characterization instantiated at a concrete scan
state. -/
theorem C8_witness :
    ((RowAllFree (new_bin Nat 2 2) ⟨1, 1, false, 0⟩ 0 ∧
      ((none : Option (Nat × Nat × Bool)).isSome = true ∨
        ∃ x, x < col_count (new_bin Nat 2 2) ⟨1, 1, false, 0⟩ ∧
          AnchorFeasible (new_bin Nat 2 2) ⟨1, 1, false, 0⟩ Strategy.DoNotRotate x 0)) →
      best_fit_rows (new_bin Nat 2 2) ⟨1, 1, false, 0⟩ Strategy.DoNotRotate
        (fun _ => false) (0 :: [1]) usize_MAX none 0 =
        ScanOut.done (best_fit_row (new_bin Nat 2 2) ⟨1, 1, false, 0⟩
          Strategy.DoNotRotate 0 usize_MAX none).best (0 + 1)) ∧
    (¬(RowAllFree (new_bin Nat 2 2) ⟨1, 1, false, 0⟩ 0 ∧
      ((none : Option (Nat × Nat × Bool)).isSome = true ∨
        ∃ x, x < col_count (new_bin Nat 2 2) ⟨1, 1, false, 0⟩ ∧
          AnchorFeasible (new_bin Nat 2 2) ⟨1, 1, false, 0⟩ Strategy.DoNotRotate x 0)) →
      best_fit_rows (new_bin Nat 2 2) ⟨1, 1, false, 0⟩ Strategy.DoNotRotate
        (fun _ => false) (0 :: [1]) usize_MAX none 0 =
        best_fit_rows (new_bin Nat 2 2) ⟨1, 1, false, 0⟩ Strategy.DoNotRotate
          (fun _ => false) [1]
          (best_fit_row (new_bin Nat 2 2) ⟨1, 1, false, 0⟩ Strategy.DoNotRotate 0
            usize_MAX none).cur_best
          (best_fit_row (new_bin Nat 2 2) ⟨1, 1, false, 0⟩ Strategy.DoNotRotate 0
            usize_MAX none).best (0 + 1)) :=
  C8_early_stop_char rfl (by decide) (fun _ => rfl)

/-- C9: whenever `calculate_largest_hole` returns a hole with nonzero width
and height, that hole is realizable in the current grid: some axis-aligned
rectangle of exactly those dimensions lies entirely within the bin and
covers only unoccupied cells; consequently the reported hole never exceeds
any upper bound on the areas of free rectangles — it is a sound lower bound
on the true largest free rectangle. -/
theorem C9_hole_realizable {I : Type} {b : Bin I} {hole : Hole}
    (h : b.calculate_largest_hole = hole) (hw : hole.width ≠ 0)
    (hh : hole.height ≠ 0) :
    (∃ x0 y0, IsFreeRect b x0 y0 hole.width hole.height) ∧
    ∀ A : Nat, (∀ x0 y0 w hgt, IsFreeRect b x0 y0 w hgt → w * hgt ≤ A) →
      hole.width * hole.height ≤ A := by
  rcases calc_hole_spec b with hs | ⟨rr, hr, hs⟩
  · rw [h] at hs
    rw [hs] at hw
    simp at hw
  · have hhole : hole = rr.hole := by rw [← h, hs]
    obtain ⟨ha, hb', hc, hd, hcells⟩ := hr
    have hfr : IsFreeRect b rr.x0 rr.y0 hole.width hole.height := by
      rw [hhole]
      show IsFreeRect b rr.x0 rr.y0 (rr.x1 - rr.x0 + 1) (rr.y1 - rr.y0 + 1)
      refine ⟨by omega, by omega, ?_⟩
      intro x y hx1 hx2 hy1 hy2
      exact hcells x y hx1 (by omega) hy1 (by omega)
    exact ⟨⟨rr.x0, rr.y0, hfr⟩, fun A hA => hA _ _ _ _ hfr⟩

/-- C9 witness: the hole reported for an empty 2×2 bin is {2,2} and is
realizable. -/
theorem C9_witness :
    (∃ x0 y0, IsFreeRect (new_bin Nat 2 2) x0 y0
      ((new_bin Nat 2 2).calculate_largest_hole).width
      ((new_bin Nat 2 2).calculate_largest_hole).height) ∧
    ∀ A : Nat, (∀ x0 y0 w hgt, IsFreeRect (new_bin Nat 2 2) x0 y0 w hgt →
      w * hgt ≤ A) →
      ((new_bin Nat 2 2).calculate_largest_hole).width *
        ((new_bin Nat 2 2).calculate_largest_hole).height ≤ A :=
  C9_hole_realizable rfl (by decide) (by decide)

/-- C10: for every bin with an empty solution and every cancellation
predicate — including one that always returns true — `place_all` applied to
the empty item sequence returns true and leaves the solution empty: pass 1
succeeds vacuously before any cancellation poll occurs, so cancellation
cannot make the empty-input call return false. -/
theorem C10_empty_input {I : Type} {b : Bin I} {cancel : Nat → Bool}
    (hstart : b.items = []) :
    ∃ b', b.place_all [] cancel = some (true, b') ∧ b'.solution = [] :=
  ⟨{ b with largest_hole := b.calculate_largest_hole }, rfl, hstart⟩

/-- C10 witness: the empty input on a concrete bin with a constantly-true
cancellation predicate. -/
theorem C10_witness :
    ∃ b', (new_bin Nat 3 3).place_all [] (fun _ => true) = some (true, b') ∧
      b'.solution = [] :=
  C10_empty_input rfl

end BinPacking2d
